import Mathlib

/-!
# awsssh: lookup classification, instance resolution and launch arguments

A shallow embedding of `src/main.go`.

* A Go `string` is an immutable byte sequence; it is embedded as `List UInt8`
  (`GoString`).  `len`, `<`, `==`, `strconv.Atoi` and `url.QueryEscape` all
  work on bytes, as they do in Go.  String constants of the source are written
  `str "..."`, the UTF-8 bytes of the literal.
* Pointer fields of the provider record that the data model declares required
  (`InstanceId`, `PrivateIpAddress`, tag `Key` and `Value`) are plain values;
  the optional ones (`PublicIpAddress`, `KeyName`) are `Option`s and a
  dereference of an absent one is the outcome `panic`.
* `printError` ends the process with status 1: a call is the outcome `fatal`.
* `sort.Sort` is embedded from the library source of Go 1.19 (pattern-defeating
  quicksort); its loops draw on a budget of steps, and `sort_Sort_contract`
  proves that with the budget they are given the result is, on every input,
  the input rearranged in ascending order.
* `fmt.Scanln` is embedded from the library source (`fmt/scan.go`, with
  `utf8.DecodeRune` and `utf8.AppendRune`) for one string operand; standard
  input is the sequence of bytes waiting to be read.
* `net.ParseIP` and `path.Join` are parameters of the definitions that call
  them.
-/

namespace Awsssh

/-! ## Go strings -/

/-- A Go string: a sequence of bytes. -/
abbrev GoString := List UInt8

/-- The Go string constant written as the literal `s` (its UTF-8 bytes). -/
def str (s : String) : GoString := s.toUTF8.data.toList

/-- Go's builtin `len` on a string. -/
def len (s : GoString) : Nat := s.length

/-- Go's `a < b` on strings: lexicographic order of the bytes. -/
def stringLess : GoString → GoString → Bool
  | _, [] => false
  | [], _ :: _ => true
  | x :: xs, y :: ys => decide (x.toNat < y.toNat) || (x == y && stringLess xs ys)

/-- Go's `a <= b` on strings. -/
def stringLessEq : GoString → GoString → Bool
  | [], _ => true
  | _ :: _, [] => false
  | x :: xs, y :: ys => decide (x.toNat < y.toNat) || (x == y && stringLessEq xs ys)

/-- Go's `strings.Compare`. -/
def strings.Compare (a b : GoString) : Int :=
  if a = b then 0 else if stringLess a b then -1 else 1

/-! ## Errors and outcomes -/

/-- The `main.Instance` struct. -/
structure Instance where
  Name : GoString
  Id : GoString
  Ip : GoString
  Ipp : GoString
deriving DecidableEq, Repr, Inhabited

/-- The type `Instances` (`[]*Instance`). -/
abbrev Instances := List Instance

/-- Error values that reach `printError`. -/
inductive GoError where
  /-- A `fmt.Errorf` whose rendered message is `msg`. -/
  | errorf (msg : GoString)
  /-- The `*strconv.NumError` that `strconv.Atoi` returns for the input `num`. -/
  | numError (num : GoString)
  /-- The error of `findInstance`, formatted from the record looked up. -/
  | instanceNotFound (x : Instance)
deriving DecidableEq, Repr

/-- How a piece of the program ends. -/
inductive Outcome (α : Type) where
  /-- Normal completion with a value. -/
  | value (a : α)
  /-- The function `printError` was called: the error is logged, exit status 1. -/
  | fatal (err : GoError)
  /-- The call `os.Exit(0)`. -/
  | exit0
  /-- A Go run-time panic (index out of range, nil dereference). -/
  | panic
deriving DecidableEq, Repr

/-! ## Provider records -/

/-- The struct `ec2.Tag`. -/
structure ec2.Tag where
  Key : GoString
  Value : GoString
deriving DecidableEq, Repr

/-- The fields of `ec2.Instance` that the program reads. -/
structure ec2.Instance where
  InstanceId : GoString
  PrivateIpAddress : GoString
  PublicIpAddress : Option GoString
  KeyName : Option GoString
  Tags : List ec2.Tag
deriving DecidableEq, Repr

/-- One group of the provider response (`ec2.RunInstancesOutput`, a reservation). -/
structure ec2.RunInstancesOutput where
  Instances : List ec2.Instance
deriving DecidableEq, Repr

/-! ## Library routines with a fixed behaviour -/

/-- The byte of an ASCII character. -/
def ch (c : Char) : UInt8 := c.toNat.toUInt8

/-- The predicate `shouldEscape(c, encodeQueryComponent)` of `net/url`: everything
but the unreserved bytes `A-Z a-z 0-9 - _ . ~` is escaped. -/
def url.shouldEscape (c : UInt8) : Bool :=
  if ((ch 'a').toNat ≤ c.toNat ∧ c.toNat ≤ (ch 'z').toNat)
      ∨ ((ch 'A').toNat ≤ c.toNat ∧ c.toNat ≤ (ch 'Z').toNat)
      ∨ ((ch '0').toNat ≤ c.toNat ∧ c.toNat ≤ (ch '9').toNat) then false
  else if c = ch '-' ∨ c = ch '_' ∨ c = ch '.' ∨ c = ch '~' then false
  else true

/-- The table `upperhex` of `net/url`, indexed by a nibble. -/
def url.upperhex (n : Nat) : UInt8 := (str "0123456789ABCDEF").getD n 0

/-- Go's `url.QueryEscape`: a space becomes `+`, any other escaped byte `%XX`. -/
def url.QueryEscape (s : GoString) : GoString :=
  s.flatMap fun c =>
    if url.shouldEscape c then
      if c = ch ' ' then [ch '+']
      else [ch '%', url.upperhex (c.toNat / 16), url.upperhex (c.toNat % 16)]
    else [c]

/-- The size of Go's `int` on the platforms the program is built for. -/
def intSize : Nat := 64

/-- The value of a run of decimal digits, `none` when a byte is not `0`..`9`. -/
def strconv.digits : GoString → Nat → Option Nat
  | [], n => some n
  | c :: cs, n =>
    if (ch '0').toNat ≤ c.toNat ∧ c.toNat ≤ (ch '9').toNat then
      strconv.digits cs (n * 10 + (c.toNat - (ch '0').toNat))
    else none

/-- Go's `strconv.Atoi`: an optional sign, then one or more decimal digits, the
value within the range of `int`; anything else is a `*NumError`. -/
def strconv.Atoi (s : GoString) : Except GoError Int :=
  match s with
  | [] => .error (.numError s)
  | c :: rest =>
    let neg := c == ch '-'
    let ds := if c = ch '-' ∨ c = ch '+' then rest else s
    if ds = [] then .error (.numError s)
    else
      match strconv.digits ds 0 with
      | none => .error (.numError s)
      | some n =>
        if neg then
          if n > 2 ^ (intSize - 1) then .error (.numError s) else .ok (-(n : Int))
        else
          if n ≥ 2 ^ (intSize - 1) then .error (.numError s) else .ok (n : Int)

/-- Go's `%d` verb on an `int`. -/
def fmtInt (k : Int) : GoString := str (toString k)

/-- The interface `sort.Interface` over a collection type `σ`. -/
structure sort.Interface (σ : Type) where
  Len : σ → Nat
  Less : σ → Nat → Nat → Bool
  Swap : σ → Nat → Nat → σ

/-- Go's `sort.IsSorted`: no element is `Less` than its left neighbour. -/
def sort.IsSorted {σ : Type} (I : sort.Interface σ) (data : σ) : Bool :=
  (List.range (I.Len data)).all fun i => i == 0 || !(I.Less data i (i - 1))

/-! ## `sort.Sort` as implemented since Go 1.19 (pattern-defeating quicksort)

The loops of `sort/zsortinterface.go` are embedded with an explicit iteration
budget: every loop is given as many iterations as its index range has
elements. -/

/-- The function `insertionSort`, inner loop: `for j := i; j > a && Less(j, j-1); j--`. -/
def sort.insertionSort.inner {σ : Type} (I : sort.Interface σ) (a : Nat) : Nat → σ → σ
  | 0, data => data
  | j + 1, data =>
    if j + 1 > a && I.Less data (j + 1) j then
      sort.insertionSort.inner I a j (I.Swap data (j + 1) j)
    else data

/-- The function `insertionSort(data, a, b)`. -/
def sort.insertionSort {σ : Type} (I : sort.Interface σ) (data : σ) (a b : Nat) : σ :=
  (List.range' (a + 1) (b - (a + 1))).foldl (fun d i => sort.insertionSort.inner I a i d) data

/-- The loop of `siftDown(data, lo, hi, first)`, started at `root`. -/
def sort.siftDown.loop {σ : Type} (I : sort.Interface σ) (hi first : Nat) : Nat → σ → Nat → σ
  | 0, data, _ => data
  | fuel + 1, data, root =>
    let child := 2 * root + 1
    if child ≥ hi then data
    else
      let child := if child + 1 < hi && I.Less data (first + child) (first + child + 1)
        then child + 1 else child
      if !(I.Less data (first + root) (first + child)) then data
      else sort.siftDown.loop I hi first fuel (I.Swap data (first + root) (first + child)) child

/-- The function `siftDown(data, lo, hi, first)`. -/
def sort.siftDown {σ : Type} (I : sort.Interface σ) (data : σ) (lo hi first : Nat) : σ :=
  sort.siftDown.loop I hi first hi data lo

/-- The function `heapSort(data, a, b)`. -/
def sort.heapSort {σ : Type} (I : sort.Interface σ) (data : σ) (a b : Nat) : σ :=
  let first := a
  let lo := 0
  let hi := b - a
  let data := (List.range ((hi - 1) / 2 + 1)).reverse.foldl
    (fun d i => sort.siftDown I d i hi first) data
  (List.range hi).reverse.foldl
    (fun d i => sort.siftDown I (I.Swap d first (first + i)) lo i first) data

/-- A loop `for i <= j && p(i) { i++ }`; the result is the final `i`. -/
def sort.scanUp (p : Nat → Bool) : Nat → Nat → Nat → Nat
  | 0, i, _ => i
  | fuel + 1, i, j => if i ≤ j && p i then sort.scanUp p fuel (i + 1) j else i

/-- A loop `for i <= j && p(j) { j-- }`; the result is the final `j`. -/
def sort.scanDown (p : Nat → Bool) : Nat → Nat → Nat → Nat
  | 0, _, j => j
  | fuel + 1, i, j => if i ≤ j && p j then sort.scanDown p fuel i (j - 1) else j

/-- The main loop of `partition`, entered with the pivot at `a`; the result is the
data and the final `j`. -/
def sort.partition.loop {σ : Type} (I : sort.Interface σ) (a : Nat) : Nat → σ → Nat → Nat → σ × Nat
  | 0, data, _, j => (data, j)
  | fuel + 1, data, i, j =>
    let i := sort.scanUp (fun k => I.Less data k a) (j + 1 - i) i j
    let j := sort.scanDown (fun k => !(I.Less data k a)) (j + 1 - i) i j
    if i > j then (data, j)
    else sort.partition.loop I a fuel (I.Swap data i j) (i + 1) (j - 1)

/-- The function `partition(data, a, b, pivot)`: the data, `newpivot` and
`alreadyPartitioned`. -/
def sort.partition {σ : Type} (I : sort.Interface σ) (data : σ) (a b pivot : Nat) :
    σ × Nat × Bool :=
  let data := I.Swap data a pivot
  let i := a + 1
  let j := b - 1
  let i := sort.scanUp (fun k => I.Less data k a) (j + 1 - i) i j
  let j := sort.scanDown (fun k => !(I.Less data k a)) (j + 1 - i) i j
  if i > j then (I.Swap data j a, j, true)
  else
    let data := I.Swap data i j
    let r := sort.partition.loop I a (b - a + 1) data (i + 1) (j - 1)
    (I.Swap r.1 r.2 a, r.2, false)

/-- The loop of `partitionEqual`; the result is the data and the final `i`. -/
def sort.partitionEqual.loop {σ : Type} (I : sort.Interface σ) (a : Nat) :
    Nat → σ → Nat → Nat → σ × Nat
  | 0, data, i, _ => (data, i)
  | fuel + 1, data, i, j =>
    let i := sort.scanUp (fun k => !(I.Less data a k)) (j + 1 - i) i j
    let j := sort.scanDown (fun k => I.Less data a k) (j + 1 - i) i j
    if i > j then (data, i)
    else sort.partitionEqual.loop I a fuel (I.Swap data i j) (i + 1) (j - 1)

/-- The function `partitionEqual(data, a, b, pivot)`: the data and `newpivot`. -/
def sort.partitionEqual {σ : Type} (I : sort.Interface σ) (data : σ) (a b pivot : Nat) : σ × Nat :=
  sort.partitionEqual.loop I a (b - a + 1) (I.Swap data a pivot) (a + 1) (b - 1)

/-- The loops `for j := i - 1; j >= 1; j--` of `partialInsertionSort`: swap downwards
while the element is `Less` than its left neighbour. -/
def sort.partialInsertionSort.shiftLeft {σ : Type} (I : sort.Interface σ) : Nat → σ → σ
  | 0, data => data
  | j + 1, data =>
    if !(I.Less data (j + 1) j) then data
    else sort.partialInsertionSort.shiftLeft I j (I.Swap data (j + 1) j)

/-- The loops `for j := i + 1; j < b; j++` of `partialInsertionSort`. -/
def sort.partialInsertionSort.shiftRight {σ : Type} (I : sort.Interface σ) (b : Nat) :
    Nat → σ → Nat → σ
  | 0, data, _ => data
  | fuel + 1, data, j =>
    if j < b then
      if !(I.Less data j (j - 1)) then data
      else sort.partialInsertionSort.shiftRight I b fuel (I.Swap data j (j - 1)) (j + 1)
    else data

/-- The outer loop of `partialInsertionSort`, with `steps` iterations left. -/
def sort.partialInsertionSort.loop {σ : Type} (I : sort.Interface σ) (a b : Nat) :
    Nat → σ → Nat → σ × Bool
  | 0, data, _ => (data, false)
  | steps + 1, data, i =>
    let i := sort.scanUp (fun k => !(I.Less data k (k - 1))) (b - i) i (b - 1)
    if i = b then (data, true)
    else if b - a < 50 then (data, false)
    else
      let data := I.Swap data i (i - 1)
      let data := if i - a ≥ 2 then sort.partialInsertionSort.shiftLeft I (i - 1) data else data
      let data := if b - i ≥ 2 then
        sort.partialInsertionSort.shiftRight I b (b - i) data (i + 1) else data
      sort.partialInsertionSort.loop I a b steps data i

/-- The function `partialInsertionSort(data, a, b)` (`maxSteps = 5`,
`shortestShifting = 50`). -/
def sort.partialInsertionSort {σ : Type} (I : sort.Interface σ) (data : σ) (a b : Nat) : σ × Bool :=
  sort.partialInsertionSort.loop I a b 5 data (a + 1)

/-- Go's `bits.Len`. -/
def bits.Len (x : Nat) : Nat := if x = 0 then 0 else Nat.log2 x + 1

/-- The method `xorshift.Next` on a 64-bit state. -/
def xorshift.Next (r : Nat) : Nat :=
  let r := r ^^^ ((r <<< 13) % 2 ^ 64)
  let r := r ^^^ (r >>> 17)
  r ^^^ ((r <<< 5) % 2 ^ 64)

/-- The function `nextPowerOfTwo`. -/
def sort.nextPowerOfTwo (length : Nat) : Nat := (1 <<< bits.Len length) % 2 ^ 64

/-- The three swaps of `breakPatterns`, with the generator state threaded through. -/
def sort.breakPatterns.loop {σ : Type} (I : sort.Interface σ) (a length modulus idx : Nat) :
    List Nat → σ → Nat → σ
  | [], data, _ => data
  | i :: rest, data, random =>
    let random := xorshift.Next random
    let other := random &&& (modulus - 1)
    let other := if other ≥ length then other - length else other
    sort.breakPatterns.loop I a length modulus idx rest (I.Swap data (idx - 1 + i) (a + other))
      random

/-- The function `breakPatterns(data, a, b)`. -/
def sort.breakPatterns {σ : Type} (I : sort.Interface σ) (data : σ) (a b : Nat) : σ :=
  let length := b - a
  if length ≥ 8 then
    sort.breakPatterns.loop I a length (sort.nextPowerOfTwo length) (a + (length / 4) * 2 - 1)
      [0, 1, 2] data length
  else data

/-- The type `sortedHint`. -/
inductive sort.sortedHint where
  | unknownHint
  | increasingHint
  | decreasingHint
deriving DecidableEq, Repr

/-- The function `order2`: the two indices in order, and the updated swap count. -/
def sort.order2 {σ : Type} (I : sort.Interface σ) (data : σ) (a b swaps : Nat) : Nat × Nat × Nat :=
  if I.Less data b a then (b, a, swaps + 1) else (a, b, swaps)

/-- The function `median`: the index of the median and the updated swap count. -/
def sort.median {σ : Type} (I : sort.Interface σ) (data : σ) (a b c swaps : Nat) : Nat × Nat :=
  let r := sort.order2 I data a b swaps
  let a := r.1
  let b := r.2.1
  let r := sort.order2 I data b c r.2.2
  let b := r.1
  let r := sort.order2 I data a b r.2.2
  (r.2.1, r.2.2)

/-- The function `medianAdjacent`. -/
def sort.medianAdjacent {σ : Type} (I : sort.Interface σ) (data : σ) (a swaps : Nat) : Nat × Nat :=
  sort.median I data (a - 1) a (a + 1) swaps

/-- The function `choosePivot(data, a, b)` (`shortestNinther = 50`, `maxSwaps = 12`). -/
def sort.choosePivot {σ : Type} (I : sort.Interface σ) (data : σ) (a b : Nat) :
    Nat × sort.sortedHint :=
  let l := b - a
  let i := a + l / 4 * 1
  let j := a + l / 4 * 2
  let k := a + l / 4 * 3
  let r : Nat × Nat :=
    if l ≥ 8 then
      if l ≥ 50 then
        let ri := sort.medianAdjacent I data i 0
        let rj := sort.medianAdjacent I data j ri.2
        let rk := sort.medianAdjacent I data k rj.2
        sort.median I data ri.1 rj.1 rk.1 rk.2
      else sort.median I data i j k 0
    else (j, 0)
  if r.2 = 0 then (r.1, .increasingHint)
  else if r.2 = 12 then (r.1, .decreasingHint)
  else (r.1, .unknownHint)

/-- The loop of `reverseRange`. -/
def sort.reverseRange.loop {σ : Type} (I : sort.Interface σ) : Nat → σ → Nat → Nat → σ
  | 0, data, _, _ => data
  | fuel + 1, data, i, j =>
    if i < j then sort.reverseRange.loop I fuel (I.Swap data i j) (i + 1) (j - 1) else data

/-- The function `reverseRange(data, a, b)`. -/
def sort.reverseRange {σ : Type} (I : sort.Interface σ) (data : σ) (a b : Nat) : σ :=
  sort.reverseRange.loop I (b - a) data a (b - 1)

/-- The function `pdqsort(data, a, b, limit)`; `wasBalanced` and `wasPartitioned`
are its two local flags, `true` on entry.  One unit of the budget is spent on
every loop iteration and every recursive call, each of which works on a strictly
shorter range. -/
def sort.pdqsort {σ : Type} (I : sort.Interface σ) :
    Nat → σ → Nat → Nat → Nat → Bool → Bool → σ
  | 0, data, _, _, _, _, _ => data
  | fuel + 1, data, a, b, limit, wasBalanced, wasPartitioned =>
    let length := b - a
    if length ≤ 12 then sort.insertionSort I data a b
    else if limit = 0 then sort.heapSort I data a b
    else
      let data := if !wasBalanced then sort.breakPatterns I data a b else data
      let limit := if !wasBalanced then limit - 1 else limit
      let ph := sort.choosePivot I data a b
      let data := if ph.2 = .decreasingHint then sort.reverseRange I data a b else data
      let pivot := if ph.2 = .decreasingHint then (b - 1) - (ph.1 - a) else ph.1
      let hint := if ph.2 = .decreasingHint then sort.sortedHint.increasingHint else ph.2
      let pis := if wasBalanced && wasPartitioned && hint = .increasingHint
        then sort.partialInsertionSort I data a b else (data, false)
      if pis.2 then pis.1
      else
        let data := pis.1
        if a > 0 && !(I.Less data (a - 1) pivot) then
          let r := sort.partitionEqual I data a b pivot
          sort.pdqsort I fuel r.1 r.2 b limit wasBalanced wasPartitioned
        else
          let r := sort.partition I data a b pivot
          let data := r.1
          let mid := r.2.1
          let wasPartitioned := r.2.2
          let leftLen := mid - a
          let rightLen := b - mid
          let balanceThreshold := length / 8
          if leftLen < rightLen then
            let wasBalanced := decide (leftLen ≥ balanceThreshold)
            let data := sort.pdqsort I fuel data a mid limit true true
            sort.pdqsort I fuel data (mid + 1) b limit wasBalanced wasPartitioned
          else
            let wasBalanced := decide (rightLen ≥ balanceThreshold)
            let data := sort.pdqsort I fuel data (mid + 1) b limit true true
            sort.pdqsort I fuel data a mid limit wasBalanced wasPartitioned

/-- The function `sort.Sort(data)`. -/
def sort.Sort {σ : Type} (I : sort.Interface σ) (data : σ) : σ :=
  let n := I.Len data
  if n ≤ 1 then data
  else sort.pdqsort I (n + 1) data 0 n (bits.Len n) true true

/-! ## `Instances` as a `sort.Interface` -/

/-- The method `Instances.Len`. -/
def Instances.Len (s : Instances) : Nat := s.length

/-- The method `Instances.Swap`. -/
def Instances.Swap (s : Instances) (i j : Nat) : Instances :=
  (s.set i (s.getD j default)).set j (s.getD i default)

/-- The method `Instances.Less`. -/
def Instances.Less (s : Instances) (i j : Nat) : Bool :=
  let a := (s.getD i default).Name
  let b := (s.getD j default).Name
  let c := strings.Compare a b
  if c = -1 then true
  else if c = 1 then false
  else stringLess b a

/-- The value `Instances(instances)` seen through `sort.Interface`. -/
def Instances.sortInterface : sort.Interface Instances :=
  { Len := Instances.Len, Less := Instances.Less, Swap := Instances.Swap }

/-! ## `fmt.Scanln` on one string operand

The loops of `fmt/scan.go` are embedded with an explicit iteration budget: every loop
reads at least one byte per round and is given as many rounds as the input has bytes. -/

/-- The value `utf8.RuneError`. -/
def utf8.RuneError : Nat := 0xFFFD

/-- Go's `utf8.DecodeRune`: the first rune of `p` and its width in bytes.  An invalid or
incomplete encoding is `RuneError` of width 1, the empty input `RuneError` of width 0. -/
def utf8.DecodeRune (p : GoString) : Nat × Nat :=
  match p with
  | [] => (utf8.RuneError, 0)
  | p0 :: _ =>
    let b0 := p0.toNat
    if b0 < 0x80 then (b0, 1)
    else if b0 < 0xC2 ∨ 0xF4 < b0 then (utf8.RuneError, 1)
    else
      let sz := if b0 < 0xE0 then 2 else if b0 < 0xF0 then 3 else 4
      let lo := if b0 = 0xE0 then 0xA0 else if b0 = 0xF0 then 0x90 else 0x80
      let hi := if b0 = 0xED then 0x9F else if b0 = 0xF4 then 0x8F else 0xBF
      if p.length < sz then (utf8.RuneError, 1)
      else
        let b1 := (p.getD 1 0).toNat
        if b1 < lo ∨ hi < b1 then (utf8.RuneError, 1)
        else if sz ≤ 2 then (b0 % 32 * 64 + b1 % 64, 2)
        else
          let b2 := (p.getD 2 0).toNat
          if b2 < 0x80 ∨ 0xBF < b2 then (utf8.RuneError, 1)
          else if sz ≤ 3 then (b0 % 16 * 4096 + b1 % 64 * 64 + b2 % 64, 3)
          else
            let b3 := (p.getD 3 0).toNat
            if b3 < 0x80 ∨ 0xBF < b3 then (utf8.RuneError, 1)
            else (b0 % 8 * 262144 + b1 % 64 * 4096 + b2 % 64 * 64 + b3 % 64, 4)

/-- Go's `utf8.AppendRune` on the empty slice: the UTF-8 encoding of a rune, that of
`RuneError` for a surrogate or a value out of range. -/
def utf8.AppendRune (r : Nat) : GoString :=
  if r ≤ 0x7F then [r.toUInt8]
  else if r ≤ 0x7FF then [(0xC0 + r / 64).toUInt8, (0x80 + r % 64).toUInt8]
  else if r > 0x10FFFF ∨ (0xD800 ≤ r ∧ r ≤ 0xDFFF) then [0xEF, 0xBF, 0xBD]
  else if r ≤ 0xFFFF then
    [(0xE0 + r / 4096).toUInt8, (0x80 + r / 64 % 64).toUInt8, (0x80 + r % 64).toUInt8]
  else
    [(0xF0 + r / 262144).toUInt8, (0x80 + r / 4096 % 64).toUInt8,
      (0x80 + r / 64 % 64).toUInt8, (0x80 + r % 64).toUInt8]

/-- The table `space` of package `fmt`: the ranges of the white-space runes. -/
def fmt.space : List (Nat × Nat) :=
  [(0x0009, 0x000d), (0x0020, 0x0020), (0x0085, 0x0085), (0x00a0, 0x00a0), (0x1680, 0x1680),
   (0x2000, 0x200a), (0x2028, 0x2029), (0x202f, 0x202f), (0x205f, 0x205f), (0x3000, 0x3000)]

/-- The loop of `isSpace` over the table. -/
def fmt.isSpace.loop (rx : Nat) : List (Nat × Nat) → Bool
  | [] => false
  | rng :: rest =>
    if rx < rng.1 then false
    else if rx ≤ rng.2 then true
    else fmt.isSpace.loop rx rest

/-- The function `isSpace` of package `fmt`. -/
def fmt.isSpace (r : Nat) : Bool :=
  if r ≥ 2 ^ 16 then false else fmt.isSpace.loop r fmt.space

/-- The errors that `fmt.Scanln` returns on a readable input. -/
inductive fmt.ScanError where
  /-- The error `io.EOF`. -/
  | EOF
  /-- The error `unexpected newline`. -/
  | unexpectedNewline
  /-- The error `expected newline`. -/
  | expectedNewline
deriving DecidableEq, Repr

/-- The method `(*ss).SkipSpace` of a `Scanln` state (a newline is not a space): the
input left when it returns, `none` when it raises `unexpected newline`.  The input is
the bytes not yet read; the loop reads at least one byte per round. -/
def fmt.ss.SkipSpace : Nat → GoString → Option GoString
  | 0, input => some input
  | fuel + 1, input =>
    if input = [] then some input
    else
      let r := (utf8.DecodeRune input).1
      let next := input.drop (utf8.DecodeRune input).2
      if r = 0x0D ∧ next ≠ [] ∧ (utf8.DecodeRune next).1 = 0x0A then
        fmt.ss.SkipSpace fuel next
      else if r = 0x0A then none
      else if !fmt.isSpace r then some input
      else fmt.ss.SkipSpace fuel next

/-- The loop of `(*ss).token(true, notSpace)`: runes are appended to the buffer up to
the first white-space rune or the end of the input.  The result is the buffer and the
input left. -/
def fmt.ss.token.loop : Nat → GoString → GoString → GoString × GoString
  | 0, input, buf => (buf, input)
  | fuel + 1, input, buf =>
    if input = [] then (buf, input)
    else
      let r := (utf8.DecodeRune input).1
      if fmt.isSpace r then (buf, input)
      else
        fmt.ss.token.loop fuel (input.drop (utf8.DecodeRune input).2)
          (buf ++ utf8.AppendRune r)

/-- The final loop of `(*ss).doScan` for `Scanln`: after the operands only white space
may stand before the newline or the end of the input. -/
def fmt.ss.doScan.checkNewline : Nat → GoString → Option fmt.ScanError
  | 0, _ => none
  | fuel + 1, input =>
    if input = [] then none
    else
      let r := (utf8.DecodeRune input).1
      if r = 0x0A then none
      else if !fmt.isSpace r then some .expectedNewline
      else fmt.ss.doScan.checkNewline fuel (input.drop (utf8.DecodeRune input).2)

/-- The call `fmt.Scanln(&which)` for a string variable `which` on the bytes `input`
waiting on standard input: the value of `which` after the call and the error returned.
`convertString` skips white space, fails with `io.EOF` at the end of the input, and
stores the next word; `doScan` then checks the rest of the line. -/
def fmt.Scanln (which input : GoString) : GoString × Option fmt.ScanError :=
  match fmt.ss.SkipSpace input.length input with
  | none => (which, some .unexpectedNewline)
  | some input1 =>
    if input1 = [] then (which, some .EOF)
    else
      match fmt.ss.SkipSpace input1.length input1 with
      | none => (which, some .unexpectedNewline)
      | some input2 =>
        let tok := fmt.ss.token.loop input2.length input2 []
        (tok.1, fmt.ss.doScan.checkNewline tok.2.length tok.2)

/-! ## `reservationsToInstances`, `findInstance`, `chooseInstance` -/

/-- The loop over `instance.Tags` in `reservationsToInstances`. -/
def reservationsToInstances.name (tags : List ec2.Tag) : GoString :=
  tags.foldl (fun name keys => if keys.Key = str "Name" then url.QueryEscape keys.Value else name)
    (str "[None]")

/-- The body of the inner loop of `reservationsToInstances`: the `Instance` built
for one provider record. -/
def reservationsToInstances.record (inst : ec2.Instance) : Instance :=
  let name := reservationsToInstances.name inst.Tags
  let publicIp := match inst.PublicIpAddress with
    | some p => p
    | none => str "None"
  { Name := name, Id := inst.InstanceId, Ip := inst.PrivateIpAddress, Ipp := publicIp }

/-- The two nested loops of `reservationsToInstances`: the list before it is sorted. -/
def reservationsToInstances.collect (reservations : List ec2.RunInstancesOutput) : Instances :=
  reservations.foldl (fun instances reservation =>
    reservation.Instances.foldl (fun instances inst =>
      instances ++ [reservationsToInstances.record inst]) instances) []

/-- The function `reservationsToInstances`. -/
def reservationsToInstances (reservations : List ec2.RunInstancesOutput) : Instances :=
  sort.Sort Instances.sortInterface (reservationsToInstances.collect reservations)

/-- The inner loop of `findInstance`. -/
def findInstance.inner (x : Instance) : List ec2.Instance → Option ec2.Instance
  | [] => none
  | ec2Instance :: rest =>
    if ec2Instance.InstanceId = x.Id then some ec2Instance else findInstance.inner x rest

/-- The outer loop of `findInstance`. -/
def findInstance.outer (x : Instance) : List ec2.RunInstancesOutput → Option ec2.Instance
  | [] => none
  | reservation :: rest =>
    match findInstance.inner x reservation.Instances with
    | some e => some e
    | none => findInstance.outer x rest

/-- The function `findInstance`. -/
def findInstance (x : Instance) (reservations : List ec2.RunInstancesOutput) :
    Except GoError ec2.Instance :=
  match findInstance.outer x reservations with
  | some e => .ok e
  | none => .error (.instanceNotFound x)

/-- The first lines of the input part of `chooseInstance`: `which` is declared,
`fmt.Scanln(&which)` reads standard input, and only the error `io.EOF` is looked at.
The result is `none` when the process exits on `io.EOF`, else the value of `which`. -/
def chooseInstance.scan (input : GoString) : Option GoString :=
  let r := fmt.Scanln [] input
  if r.2 = some .EOF then none else some r.1

/-- The function `chooseInstance`.  `stdin` is what `fmt.Scanln(&which)` delivers
(`chooseInstance.scan` on the bytes of standard input): `none` for `io.EOF`, otherwise
the token stored in `which` (empty when the line is empty).  The table and the prompt
written to standard output are not modelled. -/
def chooseInstance (_lookup : GoString) (reservations : List ec2.RunInstancesOutput)
    (stdin : Option GoString) : Outcome ec2.Instance :=
  let instanceList := reservationsToInstances reservations
  match stdin with
  | none => .exit0
  | some which =>
    let parsed : Except GoError Int := if len which > 0 then strconv.Atoi which else .ok 1
    match parsed with
    | .error err => .fatal err
    | .ok idx =>
      if idx < 1 ∨ idx > (instanceList.length : Int) then
        .fatal (.errorf (str "Invalid index " ++ fmtInt idx))
      else
        match instanceList[(idx - 1).toNat]? with
        | none => .panic
        | some x =>
          match findInstance x reservations with
          | .error err => .fatal err
          | .ok e => .value e

/-! ## The regular expression `instIdRe` -/

/-- The fragment of Go's regular expressions that `instIdRe` is written in. -/
inductive Regexp where
  /-- A literal byte. -/
  | lit (c : UInt8)
  /-- A character class given by its ranges, `[a-bc-d]`. -/
  | cls (ranges : List (UInt8 × UInt8))
  /-- Concatenation. -/
  | cat (r₁ r₂ : Regexp)
  /-- Bounded repetition `r{min,max}`. -/
  | rep (r : Regexp) (min max : Nat)
  /-- The anchor `$`: end of text (no multi-line flag). -/
  | endText
deriving Repr

/-- All ways of repeating a matcher between `min` and `max` times. -/
def Regexp.repeatRun (f : GoString → List GoString) : Nat → Nat → GoString → List GoString
  | min, 0, s => if min = 0 then [s] else []
  | min, max + 1, s =>
    (if min = 0 then [s] else []) ++ (f s).flatMap (Regexp.repeatRun f (min - 1) max)

/-- Membership of a byte in a character class. -/
def Regexp.inClass (ranges : List (UInt8 × UInt8)) (x : UInt8) : Bool :=
  ranges.any fun r => decide (r.1.toNat ≤ x.toNat) && decide (x.toNat ≤ r.2.toNat)

/-- Matching at the start of `s`: the list of what may remain of `s` after a match. -/
def Regexp.run : Regexp → GoString → List GoString
  | .lit c => fun s =>
    match s with
    | x :: xs => if x = c then [xs] else []
    | [] => []
  | .cls ranges => fun s =>
    match s with
    | x :: xs => if Regexp.inClass ranges x then [xs] else []
    | [] => []
  | .cat r₁ r₂ => fun s => (r₁.run s).flatMap r₂.run
  | .rep r min max => fun s => Regexp.repeatRun r.run min max s
  | .endText => fun s => if s = [] then [s] else []

/-- Go's `(*Regexp).MatchString`: the expression matches somewhere in `s`. -/
def Regexp.MatchString (re : Regexp) (s : GoString) : Bool :=
  s.tails.any fun t => !(re.run t).isEmpty

/-- The package variable `instIdRe`, compiled from `i-[0-9a-fA-F]{8,17}$`. -/
def instIdRe : Regexp :=
  .cat (.lit (ch 'i')) (.cat (.lit (ch '-'))
    (.cat (.rep (.cls [(ch '0', ch '9'), (ch 'a', ch 'f'), (ch 'A', ch 'F')]) 8 17) .endText))

/-! ## `main` -/

/-- The result of the reduction step of `main`, with the number of calls of
`chooseInstance` it made. -/
structure Resolution where
  chooseInstanceCalls : Nat
  result : Outcome ec2.Instance
deriving DecidableEq, Repr

/-- Lines 291-298 of `main`: the reduction of the provider response to one instance. -/
def main.resolve (lookup : GoString) (reservations : List ec2.RunInstancesOutput)
    (stdin : Option GoString) : Resolution :=
  if reservations.length = 0 then
    ⟨0, .fatal (.errorf (str "Found no instance '" ++ lookup ++ str "'"))⟩
  else if reservations.length = 1 then
    match reservations[0]? with
    | none => ⟨0, .panic⟩
    | some reservation =>
      match reservation.Instances[0]? with
      | none => ⟨0, .panic⟩
      | some inst => ⟨0, .value inst⟩
  else
    ⟨1, chooseInstance lookup reservations stdin⟩

/-- The function `keypath`; `pathJoin` is `path.Join`. -/
def keypath (pathJoin : GoString → GoString → GoString) (kp s : GoString) : GoString :=
  pathJoin kp (s ++ str ".pem")

/-- Lines 305-311 of `main`: the argument list of the `ssh` command. -/
def main.args (pathJoin : GoString → GoString → GoString) (kp : GoString) (verboseFlag : Bool)
    (remoteCommand : GoString) (inst : ec2.Instance) : Outcome (List GoString) :=
  match inst.KeyName, inst.PublicIpAddress with
  | some keyName, some publicIp =>
    let args := [str "-i", keypath pathJoin kp keyName, str "-l", str "ec2-user", publicIp]
    let args := if verboseFlag then args ++ [str "-v"] else args
    let args := if len remoteCommand > 1 then args ++ [remoteCommand] else args
    .value args
  | _, _ => .panic

/-- The struct `ec2.Filter`. -/
structure ec2.Filter where
  Name : GoString
  Values : List GoString
deriving DecidableEq, Repr

/-- The fields of `ec2.DescribeInstancesInput` that `main` sets. -/
structure ec2.DescribeInstancesInput where
  InstanceIds : List GoString
  Filters : List ec2.Filter
deriving DecidableEq, Repr

/-- The variable `instanceStateFilter` of `main`. -/
def main.instanceStateFilter : ec2.Filter :=
  { Name := str "instance-state-name", Values := [str "running", str "pending"] }

/-- The query dimension chosen for a lookup string. -/
inductive Intent where
  | byAddress
  | byIdentifier
  | byName
deriving DecidableEq, Repr

/-- Lines 247-280 of `main`: the branch taken for `lookup` and the request built in
it.  `netParseIP` is `net.ParseIP`, `none` standing for the nil `IP`. -/
def main.params (netParseIP : GoString → Option (List UInt8)) (lookup : GoString) :
    Intent × ec2.DescribeInstancesInput :=
  if (netParseIP lookup).isSome then
    (.byAddress,
      { InstanceIds := [],
        Filters := [{ Name := str "private-ip-address", Values := [lookup] },
                    main.instanceStateFilter] })
  else if instIdRe.MatchString lookup then
    (.byIdentifier, { InstanceIds := [lookup], Filters := [main.instanceStateFilter] })
  else
    (.byName,
      { InstanceIds := [],
        Filters := [{ Name := str "tag:Name", Values := [lookup] }, main.instanceStateFilter] })

/-- The lookup classifier of `main`: which of the three branches is taken. -/
def main.classify (netParseIP : GoString → Option (List UInt8)) (lookup : GoString) : Intent :=
  (main.params netParseIP lookup).1

/-! ## Reference functions, written from the specification -/

/-- A hexadecimal digit, `[0-9a-fA-F]`. -/
def isHexDigit (c : UInt8) : Bool :=
  ((ch '0').toNat ≤ c.toNat && c.toNat ≤ (ch '9').toNat)
    || ((ch 'a').toNat ≤ c.toNat && c.toNat ≤ (ch 'f').toNat)
    || ((ch 'A').toNat ≤ c.toNat && c.toNat ≤ (ch 'F').toNat)

/-- The whole of `s` is `i-` followed by 8 to 17 hexadecimal digits
(`^i-[0-9a-fA-F]{8,17}$`). -/
def isInstanceId (s : GoString) : Bool :=
  s.take 2 == str "i-" && decide (8 ≤ (s.drop 2).length) && decide ((s.drop 2).length ≤ 17)
    && (s.drop 2).all isHexDigit

/-- The classifier as the specification words it: an address literal, else a whole
match of the identifier pattern, else a name. -/
def classifyWholeMatch (netParseIP : GoString → Option (List UInt8)) (s : GoString) : Intent :=
  if (netParseIP s).isSome then .byAddress
  else if isInstanceId s then .byIdentifier
  else .byName

/-- The classifier with the identifier pattern anchored at the end only: an address
literal, else a string that ends in an instance identifier, else a name. -/
def classifySuffixMatch (netParseIP : GoString → Option (List UInt8)) (s : GoString) : Intent :=
  if (netParseIP s).isSome then .byAddress
  else if s.tails.any isInstanceId then .byIdentifier
  else .byName

/-- The number of characters of a UTF-8 string: the bytes that do not continue a
character. -/
def characters (s : GoString) : Nat :=
  (s.filter fun c => c.toNat < 0x80 ∨ 0xC0 ≤ c.toNat).length

/-! ## Notions used to state the properties -/

/-- The provider records of a grouped response in group order, then in the order
within each group. -/
def allInstances (reservations : List ec2.RunInstancesOutput) : List ec2.Instance :=
  reservations.flatMap fun reservation => reservation.Instances

/-- The total number of provider records of a grouped response. -/
def candidateCount (reservations : List ec2.RunInstancesOutput) : Nat :=
  (reservations.map fun reservation => reservation.Instances.length).sum

/-- The last tag of a record whose key is `Name`, if any. -/
def lastNameTag (tags : List ec2.Tag) : Option ec2.Tag :=
  (tags.filter fun t => t.Key = str "Name").getLast?

/-- The records of a list that carry the name `name`, in their order in the list. -/
def withName (name : GoString) (l : Instances) : Instances :=
  l.filter fun x => x.Name = name

/-- What the documentation of `sort.Sort` promises for a call that turns `data` into
`result`, when `Less` is an ordering: the elements are rearranged and end in ascending
order as decided by `Less`.  No stability is promised. -/
def SortContract (data result : Instances) : Prop :=
  result.Perm data ∧ sort.IsSorted Instances.sortInterface result = true

/-! ## Notions used to verify `sort.Sort` -/

/-- The element at an index of the collection (the zero value outside its bounds). -/
def nth (s : Instances) (i : Nat) : Instance := s.getD i default

/-- The order of the names of two records: `x.Name <= y.Name`. -/
def nameLE (x y : Instance) : Prop := stringLessEq x.Name y.Name = true

/-- The records at the positions `a ≤ i < b` ascend by name. -/
def SortedIn (a b : Nat) (s : Instances) : Prop :=
  ∀ i j, a ≤ i → i ≤ j → j < b → nameLE (nth s i) (nth s j)

/-- The record left of position `a`, if there is one, is a lower bound of the
positions `a ≤ k < b`. -/
def LowerBound (a b : Nat) (s : Instances) : Prop :=
  a = 0 ∨ ∀ k, a ≤ k → k < b → nameLE (nth s (a - 1)) (nth s k)

/-- The collection `t` arises from `s` by calls of `Swap` on positions `a ≤ i, j < b`. -/
inductive Shuffle (a b : Nat) : Instances → Instances → Prop where
  | refl (s : Instances) : Shuffle a b s s
  | step {s t : Instances} (i j : Nat) (hi : a ≤ i) (hib : i < b) (hj : a ≤ j) (hjb : j < b) :
      Shuffle a b s t → Shuffle a b s (Instances.Swap t i j)

/-- The heap condition at node `k` of the heap of `hi` elements that starts at position
`first`: no child is above its parent. -/
def HeapAt (first hi : Nat) (s : Instances) (k : Nat) : Prop :=
  (2 * k + 1 < hi → nameLE (nth s (first + (2 * k + 1))) (nth s (first + k)))
    ∧ (2 * k + 2 < hi → nameLE (nth s (first + (2 * k + 2))) (nth s (first + k)))

/-- The element at `mid` separates the range: nothing before it is greater, nothing
behind it is smaller. -/
def Partitioned (a mid b : Nat) (s : Instances) : Prop :=
  (∀ k, a ≤ k → k < mid → nameLE (nth s k) (nth s mid))
    ∧ (∀ k, mid < k → k < b → nameLE (nth s mid) (nth s k))

/-! ## Example inputs -/

/-- A provider record with one `Name` tag, a key pair and a public address. -/
def exampleInstance (name id publicIp : String) : ec2.Instance :=
  { InstanceId := str id, PrivateIpAddress := str "10.0.0.5",
    PublicIpAddress := some (str publicIp), KeyName := some (str "mykey"),
    Tags := [{ Key := str "Name", Value := str name }] }

/-- The end-to-end scenario of the specification: two groups with one instance each. -/
def twoGroups : List ec2.RunInstancesOutput :=
  [{ Instances := [exampleInstance "web-1" "i-00000001" "203.0.113.1"] },
   { Instances := [exampleInstance "web-2" "i-00000002" "203.0.113.2"] }]

/-- Five candidates in three groups, not in name order. -/
def fiveCandidates : List ec2.RunInstancesOutput :=
  [{ Instances := [exampleInstance "web-4" "i-00000004" "203.0.113.4",
                   exampleInstance "web-2" "i-00000002" "203.0.113.2"] },
   { Instances := [exampleInstance "web-5" "i-00000005" "203.0.113.5"] },
   { Instances := [exampleInstance "web-1" "i-00000001" "203.0.113.1",
                   exampleInstance "web-3" "i-00000003" "203.0.113.3"] }]

/-- A provider record whose `Name` tag has the empty value. -/
def emptyNameInstance : ec2.Instance :=
  { InstanceId := str "i-00000009", PrivateIpAddress := str "10.0.0.9", PublicIpAddress := none,
    KeyName := none, Tags := [{ Key := str "Name", Value := str "" }] }

/-- A provider record without tags and without a public address. -/
def untaggedInstance : ec2.Instance :=
  { InstanceId := str "i-00000008", PrivateIpAddress := str "10.0.0.8", PublicIpAddress := none,
    KeyName := none, Tags := [] }

/-- One group of three instances: one without tags, one whose `Name` tag is empty, one
named `web 1`. -/
def mixedNames : List ec2.RunInstancesOutput :=
  [{ Instances := [untaggedInstance, emptyNameInstance,
      exampleInstance "web 1" "i-00000001" "203.0.113.1"] }]

/-- The result of `path.Join` on two clean, non-empty elements: the two joined by
a slash. -/
def joinClean (dir file : GoString) : GoString :=
  dir ++ str "/" ++ file

/-- Three candidates in two groups; the first and the last are both named `web`. -/
def threeCandidates : List ec2.RunInstancesOutput :=
  [{ Instances := [exampleInstance "web" "i-0000000a" "203.0.113.1",
                   exampleInstance "db" "i-00000001" "203.0.113.2"] },
   { Instances := [exampleInstance "web" "i-0000000b" "203.0.113.3"] }]

/-- Thirteen groups of one instance each; the first and the last instance are both
named `b`. -/
def thirteenCandidates : List ec2.RunInstancesOutput :=
  [("b", "i-0000000a"), ("z", "i-00000001"), ("a", "i-00000002"), ("a", "i-00000003"),
   ("a", "i-00000004"), ("a", "i-00000005"), ("c", "i-00000006"), ("a", "i-00000007"),
   ("a", "i-00000008"), ("d", "i-00000009"), ("a", "i-00000010"), ("a", "i-00000011"),
   ("b", "i-0000000b")].map fun p =>
    { Instances := [exampleInstance p.1 p.2 "203.0.113.1"] }

/-- What `net.ParseIP` returns on the example lookups, none of which holds a dot or a
colon: the nil address. -/
def noAddress (_ : GoString) : Option (List UInt8) := none

/-! ## Auxiliary facts: byte order -/

theorem stringLess_irrefl (a : GoString) : stringLess a a = false := by
  induction a with
  | nil => rfl
  | cons x xs ih => simp [stringLess, ih]

theorem stringLessEq_eq_not_stringLess (a b : GoString) :
    stringLessEq a b = !stringLess b a := by
  induction a generalizing b with
  | nil => cases b <;> rfl
  | cons x xs ih =>
    cases b with
    | nil => rfl
    | cons y ys =>
      simp only [stringLessEq, stringLess, ih]
      by_cases hxy : x = y
      · subst hxy; simp
      · have hne : x.toNat ≠ y.toNat := fun h => hxy (UInt8.toNat.inj h)
        have hyx : ¬ y = x := fun h => hxy h.symm
        rcases Nat.lt_or_gt_of_ne hne with h | h
        · have h2 : ¬ y.toNat < x.toNat := by omega
          simp [h, h2, hxy, hyx]
        · have h2 : ¬ x.toNat < y.toNat := by omega
          simp [h, h2, hxy, hyx]

theorem stringLessEq_trans {a b c : GoString} (hab : stringLessEq a b = true)
    (hbc : stringLessEq b c = true) : stringLessEq a c = true := by
  induction a generalizing b c with
  | nil => rfl
  | cons x xs ih =>
    cases b with
    | nil => simp [stringLessEq] at hab
    | cons y ys =>
      cases c with
      | nil => simp [stringLessEq] at hbc
      | cons z zs =>
        simp only [stringLessEq, Bool.or_eq_true, decide_eq_true_eq, Bool.and_eq_true,
          beq_iff_eq] at hab hbc ⊢
        rcases hab with h1 | ⟨h1, h1r⟩
        · rcases hbc with h2 | ⟨h2, _⟩
          · left; omega
          · left; subst h2; exact h1
        · subst h1
          rcases hbc with h2 | ⟨h2, h2r⟩
          · left; exact h2
          · right; exact ⟨h2, ih h1r h2r⟩

theorem stringLess_ne {a b : GoString} (h : stringLess a b = true) : a ≠ b := by
  intro hab
  subst hab
  simp [stringLess_irrefl] at h

/-- The method `Less` compares the two names with `<`: its last branch never
returns `true`. -/
theorem Instances.Less_eq (s : Instances) (i j : Nat) :
    Instances.Less s i j = stringLess (s.getD i default).Name (s.getD j default).Name := by
  unfold Instances.Less strings.Compare
  generalize (s.getD i default).Name = a
  generalize (s.getD j default).Name = b
  by_cases hab : a = b
  · subst hab; simp [stringLess_irrefl]
  · by_cases hlt : stringLess a b = true <;> simp [hab, hlt]

/-! ## Auxiliary facts: the loops of `reservationsToInstances` and `findInstance` -/

theorem foldl_append_singleton {α β : Type} (f : α → β) (l : List α) (init : List β) :
    l.foldl (fun acc x => acc ++ [f x]) init = init ++ l.map f := by
  induction l generalizing init with
  | nil => simp
  | cons x xs ih => simp [ih]

theorem collect_foldl (reservations : List ec2.RunInstancesOutput) (init : Instances) :
    reservations.foldl (fun instances reservation =>
      reservation.Instances.foldl (fun instances inst =>
        instances ++ [reservationsToInstances.record inst]) instances) init
      = init ++ (allInstances reservations).map reservationsToInstances.record := by
  induction reservations generalizing init with
  | nil => simp [allInstances]
  | cons r rs ih =>
    rw [List.foldl_cons, foldl_append_singleton, ih]
    simp [allInstances, List.flatMap_cons, List.map_append, List.append_assoc]

/-- The two loops append one record per provider record, in flattening order. -/
theorem collect_eq_map (reservations : List ec2.RunInstancesOutput) :
    reservationsToInstances.collect reservations
      = (allInstances reservations).map reservationsToInstances.record := by
  simp [reservationsToInstances.collect, collect_foldl]

theorem length_allInstances (reservations : List ec2.RunInstancesOutput) :
    (allInstances reservations).length = candidateCount reservations := by
  induction reservations with
  | nil => rfl
  | cons r rs ih =>
    simp only [allInstances, List.flatMap_cons, List.length_append, candidateCount, List.map_cons,
      List.sum_cons] at ih ⊢
    rw [ih]

/-- The loop over the tags keeps the escaped value of the last `Name` tag. -/
theorem name_foldl (tags : List ec2.Tag) (init : GoString) :
    tags.foldl (fun name keys =>
        if keys.Key = str "Name" then url.QueryEscape keys.Value else name) init
      = match lastNameTag tags with
        | some t => url.QueryEscape t.Value
        | none => init := by
  induction tags using List.reverseRecOn with
  | nil => rfl
  | append_singleton ts t ih =>
    simp only [List.foldl_append, List.foldl_cons, List.foldl_nil, ih, lastNameTag,
      List.filter_append]
    by_cases ht : t.Key = str "Name"
    · simp [ht, List.filter_cons]
    · simp [ht, List.filter_cons, lastNameTag]

theorem name_eq (tags : List ec2.Tag) :
    reservationsToInstances.name tags
      = match lastNameTag tags with
        | some t => url.QueryEscape t.Value
        | none => str "[None]" :=
  name_foldl tags _

theorem findInstance_inner_some {x : Instance} {l : List ec2.Instance} {e : ec2.Instance}
    (h : findInstance.inner x l = some e) : e ∈ l ∧ e.InstanceId = x.Id := by
  induction l with
  | nil => simp [findInstance.inner] at h
  | cons y ys ih =>
    unfold findInstance.inner at h
    split at h
    · next hy =>
      cases h
      exact ⟨List.mem_cons_self _ _, hy⟩
    · exact ⟨List.mem_cons_of_mem _ (ih h).1, (ih h).2⟩

theorem findInstance_inner_none {x : Instance} {l : List ec2.Instance}
    (h : findInstance.inner x l = none) : ∀ e ∈ l, e.InstanceId ≠ x.Id := by
  induction l with
  | nil => simp
  | cons y ys ih =>
    unfold findInstance.inner at h
    split at h
    · cases h
    · next hy =>
      intro e he
      rcases List.mem_cons.mp he with rfl | he
      · exact hy
      · exact ih h e he

theorem findInstance_outer_some {x : Instance} {rs : List ec2.RunInstancesOutput}
    {e : ec2.Instance} (h : findInstance.outer x rs = some e) :
    e ∈ allInstances rs ∧ e.InstanceId = x.Id := by
  induction rs with
  | nil => simp [findInstance.outer] at h
  | cons r rest ih =>
    unfold findInstance.outer at h
    split at h
    · next e1 h1 =>
      cases h
      have := findInstance_inner_some h1
      exact ⟨by simp [allInstances, this.1], this.2⟩
    · have := ih h
      refine ⟨?_, this.2⟩
      have h3 := this.1
      simp only [allInstances, List.flatMap_cons, List.mem_append] at h3 ⊢
      exact Or.inr h3

theorem findInstance_outer_none {x : Instance} {rs : List ec2.RunInstancesOutput}
    (h : findInstance.outer x rs = none) : ∀ e ∈ allInstances rs, e.InstanceId ≠ x.Id := by
  induction rs with
  | nil => simp [allInstances]
  | cons r rest ih =>
    unfold findInstance.outer at h
    split at h
    · cases h
    · next h1 =>
      intro e he
      simp only [allInstances, List.flatMap_cons, List.mem_append] at he
      rcases he with he | he
      · exact findInstance_inner_none h1 e he
      · exact ih h e he

/-- The lookup `findInstance` succeeds exactly when some provider record has the id. -/
theorem findInstance_of_mem {x : Instance} {rs : List ec2.RunInstancesOutput}
    (h : ∃ e ∈ allInstances rs, e.InstanceId = x.Id) :
    ∃ e, findInstance x rs = .ok e ∧ e ∈ allInstances rs ∧ e.InstanceId = x.Id := by
  unfold findInstance
  cases ho : findInstance.outer x rs with
  | none =>
    obtain ⟨e, he, hid⟩ := h
    exact absurd hid (findInstance_outer_none ho e he)
  | some e => exact ⟨e, rfl, findInstance_outer_some ho⟩

/-! ## Auxiliary facts: sorted lists -/

theorem isSorted_adjacent {l : Instances}
    (h : sort.IsSorted Instances.sortInterface l = true) (i : Nat) (hi : i + 1 < l.length) :
    stringLessEq (l.getD i default).Name (l.getD (i + 1) default).Name = true := by
  unfold sort.IsSorted at h
  rw [List.all_eq_true] at h
  have h1 := h (i + 1) (List.mem_range.mpr hi)
  simp only [Nat.add_sub_cancel, Nat.add_one_ne_zero, beq_iff_eq, Bool.false_or,
    Bool.not_eq_true', decide_False] at h1
  have h2 : Instances.Less l (i + 1) i = false := by simpa using h1
  rw [Instances.Less_eq] at h2
  rw [stringLessEq_eq_not_stringLess, h2]
  rfl

theorem stringLessEq_refl (a : GoString) : stringLessEq a a = true := by
  rw [stringLessEq_eq_not_stringLess, stringLess_irrefl]
  rfl

/-- In a list that `sort.IsSorted` accepts the names ascend between any two positions. -/
theorem isSorted_pairwise {l : Instances}
    (h : sort.IsSorted Instances.sortInterface l = true) (i j : Nat) (hij : i ≤ j)
    (hj : j < l.length) :
    stringLessEq (l.getD i default).Name (l.getD j default).Name = true := by
  induction j with
  | zero =>
    have : i = 0 := by omega
    subst this
    exact stringLessEq_refl _
  | succ k ih =>
    by_cases hik : i = k + 1
    · subst hik; exact stringLessEq_refl _
    · exact stringLessEq_trans (ih (by omega) (by omega)) (isSorted_adjacent h k hj)

theorem forall₂_map_record (l : List ec2.Instance) :
    List.Forall₂ (fun e x => x.Id = e.InstanceId ∧ x.Ip = e.PrivateIpAddress
        ∧ x.Ipp = e.PublicIpAddress.getD (str "None"))
      l (l.map reservationsToInstances.record) := by
  induction l with
  | nil => exact List.Forall₂.nil
  | cons e es ih =>
    refine List.Forall₂.cons ⟨rfl, rfl, ?_⟩ ih
    cases h : e.PublicIpAddress <;> simp [reservationsToInstances.record, h]

/-! ## Auxiliary facts: `instIdRe` -/

/-- The class `[0-9a-fA-F]` of `instIdRe` holds the hexadecimal digits. -/
theorem hexClass_eq (c : UInt8) :
    Regexp.inClass [(ch '0', ch '9'), (ch 'a', ch 'f'), (ch 'A', ch 'F')] c = isHexDigit c := by
  simp [Regexp.inClass, isHexDigit, List.any, Bool.or_assoc]

theorem endText_run_nil : Regexp.run .endText [] = [[]] := rfl

theorem endText_run_cons (x : UInt8) (xs : GoString) : Regexp.run .endText (x :: xs) = [] := rfl

/-- A bounded repetition of a one-byte matcher followed by `$` matches exactly the
strings of accepted bytes whose length is within the bounds. -/
theorem repeat_endText (p : UInt8 → Bool) (f : GoString → List GoString)
    (hnil : f [] = []) (hcons : ∀ x xs, f (x :: xs) = if p x then [xs] else [])
    (min max : Nat) (s : GoString) :
    ((Regexp.repeatRun f min max s).flatMap (Regexp.run .endText) ≠ [])
      ↔ min ≤ s.length ∧ s.length ≤ max ∧ ∀ c ∈ s, p c = true := by
  induction max generalizing min s with
  | zero =>
    cases s with
    | nil => by_cases h : min = 0 <;> simp [Regexp.repeatRun, endText_run_nil, h]
    | cons x xs => by_cases h : min = 0 <;> simp [Regexp.repeatRun, endText_run_cons, h]
  | succ m ih =>
    cases s with
    | nil => by_cases h : min = 0 <;> simp [Regexp.repeatRun, endText_run_nil, hnil, h]
    | cons x xs =>
      have ih1 := ih (min - 1) xs
      by_cases hx : p x = true
      · by_cases h : min = 0
        · subst h
          simp only [Regexp.repeatRun, hcons, hx, if_true, List.flatMap_cons, List.flatMap_nil,
            List.append_nil, List.cons_append, List.nil_append, endText_run_cons]
          rw [ih1]
          simp [hx]
        · simp only [Regexp.repeatRun, hcons, hx, h, if_true, if_false, List.flatMap_cons,
            List.flatMap_nil, List.append_nil, List.nil_append]
          rw [ih1]
          simp only [List.length_cons, List.mem_cons, forall_eq_or_imp, hx, true_and]
          constructor
          · rintro ⟨h1, h2, h3⟩; exact ⟨by omega, by omega, h3⟩
          · rintro ⟨h1, h2, h3⟩; exact ⟨by omega, by omega, h3⟩
      · by_cases h : min = 0
        · subst h
          simp [Regexp.repeatRun, hcons, hx, endText_run_cons]
        · simp [Regexp.repeatRun, hcons, hx, h]

theorem str_i_dash : str "i-" = [ch 'i', ch '-'] := by decide

/-- At a given position `instIdRe` matches exactly an instance identifier that runs
to the end of the string. -/
theorem instIdRe_run (t : GoString) : (!(instIdRe.run t).isEmpty) = isInstanceId t := by
  have hcore : ∀ h : GoString,
      ((Regexp.repeatRun
          (Regexp.run (.cls [(ch '0', ch '9'), (ch 'a', ch 'f'), (ch 'A', ch 'F')])) 8 17
            h).flatMap (Regexp.run .endText) ≠ [])
        ↔ 8 ≤ h.length ∧ h.length ≤ 17 ∧ ∀ c ∈ h, isHexDigit c = true := by
    intro h
    rw [repeat_endText isHexDigit _ rfl (fun x xs => by simp [Regexp.run, hexClass_eq])]
  rw [Bool.eq_iff_iff]
  simp only [Bool.not_eq_true', List.isEmpty_eq_false]
  match t with
  | [] => simp [instIdRe, Regexp.run, isInstanceId, str_i_dash]
  | [x] => by_cases hx : x = ch 'i' <;> simp [instIdRe, Regexp.run, isInstanceId, str_i_dash, hx]
  | x :: y :: h =>
    have hc := hcore h
    by_cases hx : x = ch 'i'
    · by_cases hy : y = ch '-'
      · subst hx; subst hy
        simp only [instIdRe, Regexp.run, if_true, List.flatMap_cons, List.flatMap_nil,
          List.append_nil, isInstanceId, str_i_dash, List.take_succ_cons, List.take_zero,
          List.drop_succ_cons, List.drop_zero, beq_self_eq_true, Bool.true_and,
          Bool.and_eq_true, decide_eq_true_eq, List.all_eq_true]
        simp only [Regexp.run] at hc
        rw [and_assoc]
        exact hc
      · simp [instIdRe, Regexp.run, isInstanceId, str_i_dash, hx, hy]
    · simp [instIdRe, Regexp.run, isInstanceId, str_i_dash, hx]

/-- The regular expression `instIdRe` matches the strings that end in an instance
identifier. -/
theorem instIdRe_matchString (s : GoString) :
    instIdRe.MatchString s = s.tails.any isInstanceId := by
  unfold Regexp.MatchString
  congr 1
  funext t
  exact instIdRe_run t

/-! ## Auxiliary facts: the insertion sort of `sort.Sort` -/

theorem swap_length (s : Instances) (i j : Nat) : (Instances.Swap s i j).length = s.length := by
  simp [Instances.Swap]

/-- Exchanging two neighbours with different names leaves the records of each name in
their order. -/
theorem withName_swap_adjacent (name : GoString) (s : Instances) (j : Nat)
    (hj : j + 1 < s.length)
    (hne : (s.getD (j + 1) default).Name ≠ (s.getD j default).Name) :
    withName name (Instances.Swap s (j + 1) j) = withName name s := by
  induction j generalizing s with
  | zero =>
    match s, hj with
    | a :: b :: l, _ =>
      simp only [List.getD_cons_succ, List.getD_cons_zero] at hne
      simp only [Instances.Swap, withName, List.getD_cons_succ, List.getD_cons_zero,
        List.set_cons_succ, List.set_cons_zero, List.filter_cons]
      by_cases ha : a.Name = name
      · have hb : ¬ b.Name = name := fun hb => hne (hb.trans ha.symm)
        simp [ha, hb]
      · simp [ha]
  | succ k ih =>
    match s, hj with
    | c :: s1, hj =>
      simp only [List.getD_cons_succ] at hne
      have h1 := ih s1 (by simpa using hj) hne
      simp only [Instances.Swap, withName, List.getD_cons_succ, List.set_cons_succ,
        List.filter_cons] at h1 ⊢
      rw [h1]

/-- The inner loop of `insertionSort` keeps the records of each name in their order. -/
theorem insertionSort_inner_stable (name : GoString) (a j : Nat) (data : Instances)
    (hj : j < data.length) :
    withName name (sort.insertionSort.inner Instances.sortInterface a j data)
        = withName name data
      ∧ (sort.insertionSort.inner Instances.sortInterface a j data).length = data.length := by
  induction j generalizing data with
  | zero => exact ⟨rfl, rfl⟩
  | succ k ih =>
    unfold sort.insertionSort.inner
    split
    · next hcond =>
      simp only [Bool.and_eq_true, decide_eq_true_eq] at hcond
      have hless : Instances.Less data (k + 1) k = true := hcond.2
      rw [Instances.Less_eq] at hless
      have hswap := withName_swap_adjacent name data k hj (stringLess_ne hless)
      have hlen := swap_length data (k + 1) k
      have h := ih (Instances.Swap data (k + 1) k) (by rw [hlen]; omega)
      exact ⟨h.1.trans hswap, h.2.trans hlen⟩
    · exact ⟨rfl, rfl⟩

theorem insertionSort_fold_stable (name : GoString) (a : Nat) (idxs : List Nat)
    (data : Instances) (hidx : ∀ i ∈ idxs, i < data.length) :
    withName name
        (idxs.foldl (fun d i => sort.insertionSort.inner Instances.sortInterface a i d) data)
        = withName name data
      ∧ (idxs.foldl (fun d i => sort.insertionSort.inner Instances.sortInterface a i d)
          data).length = data.length := by
  induction idxs generalizing data with
  | nil => exact ⟨rfl, rfl⟩
  | cons i rest ih =>
    have h1 := insertionSort_inner_stable name a i data (hidx i (List.mem_cons_self _ _))
    have h2 := ih (sort.insertionSort.inner Instances.sortInterface a i data) (by
      intro k hk
      rw [h1.2]
      exact hidx k (List.mem_cons_of_mem _ hk))
    rw [List.foldl_cons]
    exact ⟨h2.1.trans h1.1, h2.2.trans h1.2⟩

/-- On at most twelve records `sort.Sort` is its insertion sort. -/
theorem sort_Sort_small (data : Instances) (h : data.length ≤ 12) :
    sort.Sort Instances.sortInterface data = sort.insertionSort Instances.sortInterface data 0 data.length := by
  unfold sort.Sort
  show (if data.length ≤ 1 then data else _) = _
  split
  · next h1 =>
    match data, h1 with
    | [], _ => rfl
    | [x], _ => rfl
  · show sort.pdqsort Instances.sortInterface (data.length + 1) data 0 data.length _ true true = _
    rw [sort.pdqsort]
    simp [h]

/-- On at most twelve records `sort.Sort` keeps the records of each name in their order. -/
theorem sort_Sort_small_stable (name : GoString) (data : Instances) (h : data.length ≤ 12) :
    withName name (sort.Sort Instances.sortInterface data) = withName name data := by
  rw [sort_Sort_small data h]
  unfold sort.insertionSort
  refine (insertionSort_fold_stable name 0 _ data ?_).1
  intro i hi
  rw [List.mem_range'_1] at hi
  omega

/-! ## Auxiliary facts: `sort.Sort` sorts -/

theorem stringLess_imp_lessEq {a b : GoString} (h : stringLess a b = true) :
    stringLessEq a b = true := by
  induction a generalizing b with
  | nil => rfl
  | cons x xs ih =>
    cases b with
    | nil => simp [stringLess] at h
    | cons y ys =>
      simp only [stringLess, stringLessEq, Bool.or_eq_true, decide_eq_true_eq, Bool.and_eq_true,
        beq_iff_eq] at h ⊢
      rcases h with h | ⟨h1, h2⟩
      · exact Or.inl h
      · exact Or.inr ⟨h1, ih h2⟩

theorem nameLE_refl (x : Instance) : nameLE x x := stringLessEq_refl _

theorem nameLE_trans {x y z : Instance} (h1 : nameLE x y) (h2 : nameLE y z) : nameLE x z :=
  stringLessEq_trans h1 h2

theorem nameLE_total (x y : Instance) : nameLE x y ∨ nameLE y x := by
  unfold nameLE
  cases h : stringLess y.Name x.Name
  · left
    rw [stringLessEq_eq_not_stringLess, h]
    rfl
  · exact Or.inr (stringLess_imp_lessEq h)

theorem Less_nth (s : Instances) (i j : Nat) :
    Instances.sortInterface.Less s i j = stringLess (nth s i).Name (nth s j).Name :=
  Instances.Less_eq s i j

theorem less_true_iff (s : Instances) (i j : Nat) :
    Instances.sortInterface.Less s i j = true ↔ ¬ nameLE (nth s j) (nth s i) := by
  rw [Less_nth]
  unfold nameLE
  rw [stringLessEq_eq_not_stringLess]
  cases stringLess (nth s i).Name (nth s j).Name <;> simp

theorem less_false_iff (s : Instances) (i j : Nat) :
    Instances.sortInterface.Less s i j = false ↔ nameLE (nth s j) (nth s i) := by
  rw [Less_nth]
  unfold nameLE
  rw [stringLessEq_eq_not_stringLess]
  cases stringLess (nth s i).Name (nth s j).Name <;> simp

theorem nameLE_of_not (x y : Instance) (h : ¬ nameLE x y) : nameLE y x :=
  (nameLE_total x y).resolve_left h

/-! ### Swap -/

theorem nth_swap (s : Instances) (i j k : Nat) (hi : i < s.length) (hj : j < s.length) :
    nth (Instances.Swap s i j) k
      = if k = j then nth s i else if k = i then nth s j else nth s k := by
  unfold nth Instances.Swap
  simp only [List.getD_eq_getElem?_getD, List.getElem?_set, List.length_set]
  by_cases hkj : k = j
  · subst hkj
    simp [hj]
  · by_cases hki : k = i
    · subst hki
      have : ¬ j = k := fun h => hkj h.symm
      simp [this, hi, hkj]
    · have h1 : ¬ j = k := fun h => hkj h.symm
      have h2 : ¬ i = k := fun h => hki h.symm
      simp [h1, h2, hkj, hki]

theorem swap_perm (s : Instances) (i j : Nat) (hi : i < s.length) (hj : j < s.length) :
    (Instances.Swap s i j).Perm s := by
  rw [List.perm_iff_count]
  intro x
  unfold Instances.Swap
  rw [List.count_set _ _ _ _ (by simpa using hj), List.count_set _ _ _ _ hi]
  simp only [List.getD_eq_getElem?_getD, List.getElem?_eq_getElem hi, List.getElem?_eq_getElem hj,
    Option.getD_some, List.getElem_set]
  have h1 : (if s[i] == x then 1 else 0) ≤ s.count x := by
    split
    · next h => 
      have := List.count_pos_iff.mpr (List.getElem_mem hi)
      rw [eq_of_beq h] at this
      omega
    · omega
  have h2 : (if s[j] == x then 1 else 0) ≤ s.count x := by
    split
    · next h => 
      have := List.count_pos_iff.mpr (List.getElem_mem hj)
      rw [eq_of_beq h] at this
      omega
    · omega
  by_cases hij : i = j
  · subst hij
    simp only [if_true]
    omega
  · simp only [hij, if_false]
    generalize (if (s[i] == x) = true then 1 else 0) = p at h1 ⊢
    generalize (if (s[j] == x) = true then 1 else 0) = q at h2 ⊢
    omega

/-! ### Shuffles -/

theorem Shuffle.length_eq {a b : Nat} {s t : Instances} (h : Shuffle a b s t) :
    t.length = s.length := by
  induction h with
  | refl => rfl
  | step i j _ _ _ _ _ ih => rw [swap_length, ih]

theorem Shuffle.perm {a b : Nat} {s t : Instances} (h : Shuffle a b s t) (hb : b ≤ s.length) :
    t.Perm s := by
  induction h with
  | refl => exact List.Perm.refl _
  | step i j _ hib _ hjb h1 ih =>
    have hl := h1.length_eq
    exact (swap_perm _ i j (by omega) (by omega)).trans ih

theorem Shuffle.nth_outside {a b : Nat} {s t : Instances} (h : Shuffle a b s t)
    (hb : b ≤ s.length) (k : Nat) (hk : k < a ∨ b ≤ k) : nth t k = nth s k := by
  induction h with
  | refl => rfl
  | step i j hi hib hj hjb h1 ih =>
    have hl := h1.length_eq
    rw [nth_swap _ i j k (by omega) (by omega), if_neg (by omega), if_neg (by omega), ih]

theorem Shuffle.forall_in {a b : Nat} {s t : Instances} (h : Shuffle a b s t)
    (hb : b ≤ s.length) (P : Instance → Prop) (hP : ∀ k, a ≤ k → k < b → P (nth s k)) :
    ∀ k, a ≤ k → k < b → P (nth t k) := by
  induction h with
  | refl => exact hP
  | step i j hi hib hj hjb h1 ih =>
    have hl := h1.length_eq
    intro k hak hkb
    rw [nth_swap _ i j k (by omega) (by omega)]
    split
    · exact ih i hi hib
    · split
      · exact ih j hj hjb
      · exact ih k hak hkb

theorem Shuffle.trans {a b : Nat} {s t u : Instances} (h1 : Shuffle a b s t)
    (h2 : Shuffle a b t u) : Shuffle a b s u := by
  induction h2 with
  | refl => exact h1
  | step i j hi hib hj hjb _ ih => exact Shuffle.step i j hi hib hj hjb ih

theorem Shuffle.mono {a b a1 b1 : Nat} {s t : Instances} (h : Shuffle a b s t)
    (ha : a1 ≤ a) (hb : b ≤ b1) : Shuffle a1 b1 s t := by
  induction h with
  | refl => exact Shuffle.refl _
  | step i j hi hib hj hjb _ ih =>
    exact Shuffle.step i j (by omega) (by omega) (by omega) (by omega) ih

theorem Shuffle.swap (a b : Nat) (s : Instances) (i j : Nat) (hi : a ≤ i) (hib : i < b)
    (hj : a ≤ j) (hjb : j < b) : Shuffle a b s (Instances.Swap s i j) :=
  Shuffle.step i j hi hib hj hjb (Shuffle.refl s)

theorem LowerBound.shuffle {a b : Nat} {s t : Instances} (hlow : LowerBound a b s)
    (h : Shuffle a b s t) (hb : b ≤ s.length) : LowerBound a b t := by
  by_cases ha : a = 0
  · exact Or.inl ha
  · rcases hlow with h0 | hlow
    · exact absurd h0 ha
    · right
      intro k hk hkb
      rw [h.nth_outside hb (a - 1) (by omega)]
      exact h.forall_in hb (fun x => nameLE (nth s (a - 1)) x) hlow k hk hkb

/-! ### Sorted ranges -/

theorem SortedIn.glue {a m b : Nat} {s : Instances} (h1 : SortedIn a m s) (h2 : SortedIn m b s)
    (hc : ∀ p q, a ≤ p → p < m → m ≤ q → q < b → nameLE (nth s p) (nth s q)) :
    SortedIn a b s := by
  intro i j hai hij hjb
  by_cases hjm : j < m
  · exact h1 i j hai hij hjm
  · by_cases him : i < m
    · exact hc i j hai him (by omega) hjb
    · exact h2 i j (by omega) hij hjb

theorem SortedIn.of_small {a b : Nat} (s : Instances) (h : b ≤ a + 1) : SortedIn a b s := by
  intro i j hai hij hjb
  have : i = j := by omega
  subst this
  exact nameLE_refl _

theorem SortedIn.shuffle_outside {a b c d : Nat} {s t : Instances} (hs : SortedIn a b s)
    (h : Shuffle c d s t) (hd : d ≤ s.length) (hdis : d ≤ a ∨ b ≤ c) : SortedIn a b t := by
  intro i j hai hij hjb
  rw [h.nth_outside hd i (by omega), h.nth_outside hd j (by omega)]
  exact hs i j hai hij hjb

/-! ### Insertion sort -/

theorem insertionSort_inner_sorted (a : Nat) (j : Nat) (data : Instances) (i : Nat)
    (haj : a ≤ j) (hji : j ≤ i) (hi : i < data.length)
    (h1 : SortedIn a j data) (h2 : SortedIn j (i + 1) data)
    (hc : ∀ p q, a ≤ p → p < j → j < q → q ≤ i → nameLE (nth data p) (nth data q)) :
    Shuffle a (i + 1) data (sort.insertionSort.inner Instances.sortInterface a j data)
      ∧ SortedIn a (i + 1) (sort.insertionSort.inner Instances.sortInterface a j data) := by
  induction j generalizing data with
  | zero =>
    have : a = 0 := by omega
    subst this
    exact ⟨Shuffle.refl _, h2⟩
  | succ k ih =>
    unfold sort.insertionSort.inner
    split
    · next hcond =>
      simp only [Bool.and_eq_true, decide_eq_true_eq] at hcond
      obtain ⟨hka, hless⟩ := hcond
      rw [less_true_iff] at hless
      have hxy : nameLE (nth data (k + 1)) (nth data k) := nameLE_of_not _ _ hless
      have hsw : ∀ q, nth (Instances.Swap data (k + 1) k) q
          = if q = k then nth data (k + 1) else if q = k + 1 then nth data k else nth data q :=
        fun q => nth_swap data (k + 1) k q (by omega) (by omega)
      have hlen := swap_length data (k + 1) k
      have h := ih (Instances.Swap data (k + 1) k) (by omega) (by omega) (by rw [hlen]; exact hi)
        (by
          intro p q hp hpq hq
          rw [hsw p, hsw q]
          split_ifs
          all_goals first
            | (exfalso; omega)
            | exact h1 _ _ (by omega) (by omega) (by omega))
        (by
          intro p q hp hpq hq
          rw [hsw p, hsw q]
          split_ifs
          all_goals first
            | (exfalso; omega)
            | exact nameLE_refl _
            | exact hxy
            | exact h2 _ _ (by omega) (by omega) (by omega)
            | exact hc _ _ (by omega) (by omega) (by omega) (by omega))
        (by
          intro p q hp hpk hkq hq
          rw [hsw p, hsw q]
          split_ifs
          all_goals first
            | (exfalso; omega)
            | exact h1 _ _ (by omega) (by omega) (by omega)
            | exact hc _ _ (by omega) (by omega) (by omega) (by omega))
      exact ⟨(Shuffle.swap a (i + 1) data (k + 1) k (by omega) (by omega) (by omega)
        (by omega)).trans h.1, h.2⟩
    · next hcond =>
      refine ⟨Shuffle.refl _, ?_⟩
      simp only [Bool.and_eq_true, decide_eq_true_eq, not_and, Bool.not_eq_true] at hcond
      by_cases hka : k + 1 > a
      · have hless := hcond hka
        rw [less_false_iff] at hless
        refine SortedIn.glue h1 h2 ?_
        intro p q hp hpk hkq hq
        by_cases hqk : q = k + 1
        · subst hqk
          exact nameLE_trans (h1 p k hp (by omega) (by omega)) hless
        · exact hc p q hp hpk (by omega) (by omega)
      · have : a = k + 1 := by omega
        subst this
        exact h2

theorem insertionSort_fold_sorted (a : Nat) (n : Nat) (i : Nat) (data : Instances)
    (hai : a < i) (hlen : i + n ≤ data.length) (h1 : SortedIn a i data) :
    Shuffle a (i + n) data
        ((List.range' i n).foldl
          (fun d k => sort.insertionSort.inner Instances.sortInterface a k d) data)
      ∧ SortedIn a (i + n)
        ((List.range' i n).foldl
          (fun d k => sort.insertionSort.inner Instances.sortInterface a k d) data) := by
  induction n generalizing i data with
  | zero => exact ⟨Shuffle.refl _, h1⟩
  | succ m ih =>
    rw [List.range'_succ, List.foldl_cons]
    have hstep := insertionSort_inner_sorted a i data i (by omega) (Nat.le_refl _) (by omega) h1
      (SortedIn.of_small _ (by omega)) (by intro p q _ _ h3 h4; omega)
    have hl := hstep.1.length_eq
    have h := ih (i + 1) _ (by omega) (by rw [hl]; omega) hstep.2
    have e : i + 1 + m = i + (m + 1) := by omega
    rw [e] at h
    exact ⟨(hstep.1.mono (Nat.le_refl _) (by omega)).trans h.1, h.2⟩

/-- The function `insertionSort` sorts the range it is given. -/
theorem insertionSort_sorted (data : Instances) (a b : Nat) (hb : b ≤ data.length) :
    Shuffle a b data (sort.insertionSort Instances.sortInterface data a b)
      ∧ SortedIn a b (sort.insertionSort Instances.sortInterface data a b) := by
  unfold sort.insertionSort
  by_cases hab : a + 1 ≤ b
  · have h := insertionSort_fold_sorted a (b - (a + 1)) (a + 1) data (by omega) (by omega)
      (SortedIn.of_small _ (by omega))
    have e : a + 1 + (b - (a + 1)) = b := by omega
    rw [e] at h
    exact h
  · have e : b - (a + 1) = 0 := by omega
    rw [e]
    exact ⟨Shuffle.refl _, SortedIn.of_small _ (by omega)⟩

/-! ### The shuffling helpers of `pdqsort` -/

theorem reverseRange_loop_shuffle (a b : Nat) (fuel : Nat) (data : Instances) (i j : Nat)
    (hi : a ≤ i) (hj : j < b) :
    Shuffle a b data (sort.reverseRange.loop Instances.sortInterface fuel data i j) := by
  induction fuel generalizing data i j with
  | zero => exact Shuffle.refl _
  | succ f ih =>
    unfold sort.reverseRange.loop
    split
    · next hij =>
      exact (Shuffle.swap a b data i j hi (by omega) (by omega) hj).trans
        (ih _ (i + 1) (j - 1) (by omega) (by omega))
    · exact Shuffle.refl _

theorem reverseRange_shuffle (data : Instances) (a b : Nat) :
    Shuffle a b data (sort.reverseRange Instances.sortInterface data a b) := by
  unfold sort.reverseRange
  by_cases hab : a < b
  · exact reverseRange_loop_shuffle a b _ data a (b - 1) (Nat.le_refl _) (by omega)
  · have : b - a = 0 := by omega
    rw [this]
    exact Shuffle.refl _

theorem nextPowerOfTwo_le (length : Nat) (h : 0 < length) :
    sort.nextPowerOfTwo length ≤ 2 * length := by
  unfold sort.nextPowerOfTwo bits.Len
  rw [if_neg (by omega), Nat.shiftLeft_eq, Nat.one_mul]
  refine Nat.le_trans (Nat.mod_le _ _) ?_
  rw [Nat.pow_succ]
  have := Nat.log2_self_le (Nat.pos_iff_ne_zero.mp h)
  omega

theorem breakPatterns_loop_shuffle (a b length modulus idx : Nat) (hlen : a + length = b)
    (hpos : 0 < length) (hmod : modulus ≤ 2 * length) (hidx : a + 1 ≤ idx) (hidx2 : idx + 1 < b)
    (idxs : List Nat) (hidxs : ∀ i ∈ idxs, i < 3) (data : Instances) (random : Nat) :
    Shuffle a b data
      (sort.breakPatterns.loop Instances.sortInterface a length modulus idx idxs data random) := by
  induction idxs generalizing data random with
  | nil => exact Shuffle.refl _
  | cons i rest ih =>
    unfold sort.breakPatterns.loop
    have hi := hidxs i (List.mem_cons_self _ _)
    have hand : xorshift.Next random &&& (modulus - 1) ≤ modulus - 1 := Nat.and_le_right
    refine (Shuffle.swap a b data _ _ ?_ ?_ ?_ ?_).trans
      (ih (fun k hk => hidxs k (List.mem_cons_of_mem _ hk)) _ _)
    · omega
    · omega
    · omega
    · dsimp only
      split <;> omega

theorem breakPatterns_shuffle (data : Instances) (a b : Nat) :
    Shuffle a b data (sort.breakPatterns Instances.sortInterface data a b) := by
  unfold sort.breakPatterns
  dsimp only
  split
  · next h8 =>
    refine breakPatterns_loop_shuffle a b (b - a) _ _ (by omega) (by omega)
      (nextPowerOfTwo_le _ (by omega)) (by omega) (by omega) [0, 1, 2] (by simp) data _
  · exact Shuffle.refl _

theorem order2_mem (data : Instances) (x y sw : Nat) :
    ((sort.order2 Instances.sortInterface data x y sw).1 = x
        ∧ (sort.order2 Instances.sortInterface data x y sw).2.1 = y)
      ∨ ((sort.order2 Instances.sortInterface data x y sw).1 = y
        ∧ (sort.order2 Instances.sortInterface data x y sw).2.1 = x) := by
  unfold sort.order2
  split
  · exact Or.inr ⟨rfl, rfl⟩
  · exact Or.inl ⟨rfl, rfl⟩

theorem median_mem (data : Instances) (x y z sw : Nat) :
    (sort.median Instances.sortInterface data x y z sw).1 = x
      ∨ (sort.median Instances.sortInterface data x y z sw).1 = y
      ∨ (sort.median Instances.sortInterface data x y z sw).1 = z := by
  unfold sort.median
  dsimp only
  have h1 := order2_mem data x y sw
  generalize sort.order2 Instances.sortInterface data x y sw = r1 at h1 ⊢
  have h2 := order2_mem data r1.2.1 z r1.2.2
  generalize sort.order2 Instances.sortInterface data r1.2.1 z r1.2.2 = r2 at h2 ⊢
  have h3 := order2_mem data r1.1 r2.1 r2.2.2
  generalize sort.order2 Instances.sortInterface data r1.1 r2.1 r2.2.2 = r3 at h3 ⊢
  rcases h1 with ⟨e1, e2⟩ | ⟨e1, e2⟩ <;> rcases h2 with ⟨e3, e4⟩ | ⟨e3, e4⟩ <;>
    rcases h3 with ⟨e5, e6⟩ | ⟨e5, e6⟩ <;> simp_all

theorem choosePivot_range (data : Instances) (a b : Nat) (h : 12 < b - a) :
    a ≤ (sort.choosePivot Instances.sortInterface data a b).1
      ∧ (sort.choosePivot Instances.sortInterface data a b).1 < b := by
  unfold sort.choosePivot
  dsimp only
  have key : ∀ r : Nat × Nat, (a ≤ r.1 ∧ r.1 < b) →
      (a ≤ (if r.2 = 0 then (r.1, sort.sortedHint.increasingHint)
          else if r.2 = 12 then (r.1, sort.sortedHint.decreasingHint)
          else (r.1, sort.sortedHint.unknownHint)).1
        ∧ (if r.2 = 0 then (r.1, sort.sortedHint.increasingHint)
          else if r.2 = 12 then (r.1, sort.sortedHint.decreasingHint)
          else (r.1, sort.sortedHint.unknownHint)).1 < b) := by
    intro r hr
    split
    · exact hr
    · split <;> exact hr
  apply key
  rw [if_pos (by omega)]
  split
  · next h50 =>
    unfold sort.medianAdjacent
    have hi := median_mem data (a + (b - a) / 4 * 1 - 1) (a + (b - a) / 4 * 1)
      (a + (b - a) / 4 * 1 + 1) 0
    generalize sort.median Instances.sortInterface data (a + (b - a) / 4 * 1 - 1)
      (a + (b - a) / 4 * 1) (a + (b - a) / 4 * 1 + 1) 0 = ri at hi ⊢
    have hj := median_mem data (a + (b - a) / 4 * 2 - 1) (a + (b - a) / 4 * 2)
      (a + (b - a) / 4 * 2 + 1) ri.2
    generalize sort.median Instances.sortInterface data (a + (b - a) / 4 * 2 - 1)
      (a + (b - a) / 4 * 2) (a + (b - a) / 4 * 2 + 1) ri.2 = rj at hj ⊢
    have hk := median_mem data (a + (b - a) / 4 * 3 - 1) (a + (b - a) / 4 * 3)
      (a + (b - a) / 4 * 3 + 1) rj.2
    generalize sort.median Instances.sortInterface data (a + (b - a) / 4 * 3 - 1)
      (a + (b - a) / 4 * 3) (a + (b - a) / 4 * 3 + 1) rj.2 = rk at hk ⊢
    have hm := median_mem data ri.1 rj.1 rk.1 rk.2
    generalize sort.median Instances.sortInterface data ri.1 rj.1 rk.1 rk.2 = rm at hm ⊢
    omega
  · have hm := median_mem data (a + (b - a) / 4 * 1) (a + (b - a) / 4 * 2)
      (a + (b - a) / 4 * 3) 0
    generalize sort.median Instances.sortInterface data (a + (b - a) / 4 * 1)
      (a + (b - a) / 4 * 2) (a + (b - a) / 4 * 3) 0 = rm at hm ⊢
    omega

/-! ### The scanning loops -/

theorem scanUp_spec (p : Nat → Bool) (fuel i j : Nat) (hf : j + 1 - i ≤ fuel) :
    i ≤ sort.scanUp p fuel i j
      ∧ (i ≤ j + 1 → sort.scanUp p fuel i j ≤ j + 1)
      ∧ (∀ k, i ≤ k → k < sort.scanUp p fuel i j → p k = true)
      ∧ (sort.scanUp p fuel i j ≤ j → p (sort.scanUp p fuel i j) = false) := by
  induction fuel generalizing i with
  | zero =>
    unfold sort.scanUp
    exact ⟨Nat.le_refl _, fun h => h, fun k h1 h2 => by omega, fun h => by omega⟩
  | succ f ih =>
    unfold sort.scanUp
    split
    · next hcond =>
      simp only [Bool.and_eq_true, decide_eq_true_eq] at hcond
      obtain ⟨h1, h2, h3, h4⟩ := ih (i + 1) (by omega)
      refine ⟨by omega, fun _ => h2 (by omega), ?_, h4⟩
      intro k hk hk2
      by_cases hki : k = i
      · subst hki; exact hcond.2
      · exact h3 k (by omega) hk2
    · next hcond =>
      simp only [Bool.and_eq_true, decide_eq_true_eq, not_and, Bool.not_eq_true] at hcond
      exact ⟨Nat.le_refl _, fun h => h, fun k h1 h2 => by omega, fun h => hcond h⟩

theorem scanDown_spec (p : Nat → Bool) (fuel i j : Nat) (hi1 : 1 ≤ i)
    (hf : j + 1 - i ≤ fuel) :
    sort.scanDown p fuel i j ≤ j
      ∧ (i ≤ j + 1 → i ≤ sort.scanDown p fuel i j + 1)
      ∧ (∀ k, sort.scanDown p fuel i j < k → k ≤ j → p k = true)
      ∧ (i ≤ sort.scanDown p fuel i j → p (sort.scanDown p fuel i j) = false) := by
  induction fuel generalizing j with
  | zero =>
    unfold sort.scanDown
    exact ⟨Nat.le_refl _, fun h => h, fun k h1 h2 => by omega, fun h => by omega⟩
  | succ f ih =>
    unfold sort.scanDown
    split
    · next hcond =>
      simp only [Bool.and_eq_true, decide_eq_true_eq] at hcond
      have hij := hcond.1
      obtain ⟨h1, h2, h3, h4⟩ := ih (j - 1) (by omega)
      refine ⟨by omega, fun _ => ?_, ?_, h4⟩
      · have := h2 (by omega)
        omega
      · intro k hk hk2
        by_cases hkj : k = j
        · subst hkj; exact hcond.2
        · exact h3 k hk (by omega)
    · next hcond =>
      simp only [Bool.and_eq_true, decide_eq_true_eq, not_and, Bool.not_eq_true] at hcond
      exact ⟨Nat.le_refl _, fun h => h, fun k h1 h2 => by omega, fun h => hcond h⟩

/-! ### `partition` -/

/-- One round of scanning in `partition`: the elements passed on the left are at most
the pivot, those passed on the right at least the pivot, and where the scans stop
without having crossed the two elements are out of place. -/
theorem partition_round (a b : Nat) (P : Instance) (data : Instances) (i j : Nat)
    (hai : a < i) (hij : i ≤ j + 1) (_hjb : j < b) (hP : nth data a = P)
    (hleft : ∀ k, a < k → k < i → nameLE (nth data k) P)
    (hright : ∀ k, j < k → k < b → nameLE P (nth data k))
    (i1 j1 : Nat)
    (hi1 : i1 = sort.scanUp (fun k => Instances.sortInterface.Less data k a) (j + 1 - i) i j)
    (hj1 : j1 = sort.scanDown (fun k => !(Instances.sortInterface.Less data k a)) (j + 1 - i1)
      i1 j) :
    i ≤ i1 ∧ j1 ≤ j ∧ i1 ≤ j1 + 1
      ∧ (∀ k, a < k → k < i1 → nameLE (nth data k) P)
      ∧ (∀ k, j1 < k → k < b → nameLE P (nth data k))
      ∧ (i1 ≤ j1 → i1 < j1 ∧ nameLE P (nth data i1) ∧ nameLE (nth data j1) P) := by
  obtain ⟨u1, u2, u3, u4⟩ :=
    scanUp_spec (fun k => Instances.sortInterface.Less data k a) (j + 1 - i) i j (Nat.le_refl _)
  rw [← hi1] at u1 u2 u3 u4
  obtain ⟨d1, d2, d3, d4⟩ :=
    scanDown_spec (fun k => !(Instances.sortInterface.Less data k a)) (j + 1 - i1) i1 j
      (by omega) (Nat.le_refl _)
  rw [← hj1] at d1 d2 d3 d4
  have hi1j := u2 hij
  have hj1i := d2 hi1j
  refine ⟨u1, d1, hj1i, ?_, ?_, ?_⟩
  · intro k hak hk
    by_cases hki : k < i
    · exact hleft k hak hki
    · have := u3 k (by omega) hk
      rw [less_true_iff, hP] at this
      exact nameLE_of_not _ _ this
  · intro k hk hkb
    by_cases hkj : j < k
    · exact hright k hkj hkb
    · have := d3 k hk (by omega)
      simp only [Bool.not_eq_true'] at this
      rw [less_false_iff, hP] at this
      exact this
  · intro hle
    have e1 := u4 (by omega)
    have e2 := d4 hle
    simp only [Bool.not_eq_false'] at e2
    have hne : i1 ≠ j1 := by
      intro h
      rw [h] at e1
      rw [e1] at e2
      cases e2
    rw [less_false_iff, hP] at e1
    rw [less_true_iff, hP] at e2
    exact ⟨by omega, e1, nameLE_of_not _ _ e2⟩

theorem partition_loop_spec (a b : Nat) (P : Instance) (fuel : Nat) (data : Instances)
    (i j : Nat) (hb : b ≤ data.length) (hai : a < i) (hij : i ≤ j + 1) (hjb : j < b)
    (hf : j + 1 - i < fuel) (hP : nth data a = P)
    (hleft : ∀ k, a < k → k < i → nameLE (nth data k) P)
    (hright : ∀ k, j < k → k < b → nameLE P (nth data k)) :
    Shuffle (a + 1) b data (sort.partition.loop Instances.sortInterface a fuel data i j).1
      ∧ a ≤ (sort.partition.loop Instances.sortInterface a fuel data i j).2
      ∧ (sort.partition.loop Instances.sortInterface a fuel data i j).2 < b
      ∧ (∀ k, a < k → k ≤ (sort.partition.loop Instances.sortInterface a fuel data i j).2 →
          nameLE (nth (sort.partition.loop Instances.sortInterface a fuel data i j).1 k) P)
      ∧ (∀ k, (sort.partition.loop Instances.sortInterface a fuel data i j).2 < k → k < b →
          nameLE P (nth (sort.partition.loop Instances.sortInterface a fuel data i j).1 k)) := by
  induction fuel generalizing data i j with
  | zero => omega
  | succ f ih =>
    unfold sort.partition.loop
    dsimp only
    generalize hi1 : sort.scanUp (fun k => Instances.sortInterface.Less data k a) (j + 1 - i) i j
      = i1
    generalize hj1 : sort.scanDown (fun k => !(Instances.sortInterface.Less data k a))
      (j + 1 - i1) i1 j = j1
    obtain ⟨r1, r2, r3, r4, r5, r6⟩ :=
      partition_round a b P data i j hai hij hjb hP hleft hright i1 j1 hi1.symm hj1.symm
    split
    · next hgt =>
      refine ⟨Shuffle.refl _, by omega, by omega, ?_, r5⟩
      intro k hak hk
      exact r4 k hak (by omega)
    · next hgt =>
      obtain ⟨s1, s2, s3⟩ := r6 (by omega)
      have hsw : ∀ q, nth (Instances.Swap data i1 j1) q
          = if q = j1 then nth data i1 else if q = i1 then nth data j1 else nth data q :=
        fun q => nth_swap data i1 j1 q (by omega) (by omega)
      have hlen := swap_length data i1 j1
      have h := ih (Instances.Swap data i1 j1) (i1 + 1) (j1 - 1) (by rw [hlen]; exact hb)
        (by omega) (by omega) (by omega) (by omega)
        (by rw [hsw a, if_neg (by omega), if_neg (by omega)]; exact hP)
        (by
          intro k hak hk
          rw [hsw k]
          split_ifs
          all_goals first
            | (exfalso; omega)
            | exact s3
            | exact r4 _ (by omega) (by omega))
        (by
          intro k hk hkb
          rw [hsw k]
          split_ifs
          all_goals first
            | (exfalso; omega)
            | exact s2
            | exact r5 _ (by omega) (by omega))
      exact ⟨(Shuffle.swap (a + 1) b data i1 j1 (by omega) (by omega) (by omega)
        (by omega)).trans h.1, h.2⟩

/-- The closing `Swap(j, a)` of `partition` puts the pivot between the two parts. -/
theorem partition_final (a b m : Nat) (P : Instance) (data : Instances)
    (hb : b ≤ data.length) (ham : a ≤ m) (hmb : m < b) (hP : nth data a = P)
    (hleft : ∀ k, a < k → k ≤ m → nameLE (nth data k) P)
    (hright : ∀ k, m < k → k < b → nameLE P (nth data k)) :
    Shuffle a b data (Instances.Swap data m a)
      ∧ (∀ k, a ≤ k → k < m →
          nameLE (nth (Instances.Swap data m a) k) (nth (Instances.Swap data m a) m))
      ∧ (∀ k, m < k → k < b →
          nameLE (nth (Instances.Swap data m a) m) (nth (Instances.Swap data m a) k)) := by
  have hsw : ∀ q, nth (Instances.Swap data m a) q
      = if q = a then nth data m else if q = m then nth data a else nth data q :=
    fun q => nth_swap data m a q (by omega) (by omega)
  subst hP
  refine ⟨Shuffle.swap a b data m a ham hmb (Nat.le_refl _) (by omega), ?_, ?_⟩
  · intro k hak hkm
    rw [hsw k, hsw m]
    split_ifs
    all_goals (try subst_vars)
    all_goals first
      | (exfalso; omega)
      | exact hleft _ (by omega) (by omega)
  · intro k hmk hkb
    rw [hsw k, hsw m]
    split_ifs
    all_goals (try subst_vars)
    all_goals first
      | (exfalso; omega)
      | exact hright _ (by omega) (by omega)

/-- The function `partition` puts the pivot at `newpivot`, nothing greater before it
and nothing smaller behind it. -/
theorem partition_spec (data : Instances) (a b pivot : Nat) (hb : b ≤ data.length)
    (hap : a ≤ pivot) (hpb : pivot < b) :
    Shuffle a b data (sort.partition Instances.sortInterface data a b pivot).1
      ∧ a ≤ (sort.partition Instances.sortInterface data a b pivot).2.1
      ∧ (sort.partition Instances.sortInterface data a b pivot).2.1 < b
      ∧ (∀ k, a ≤ k → k < (sort.partition Instances.sortInterface data a b pivot).2.1 →
          nameLE (nth (sort.partition Instances.sortInterface data a b pivot).1 k)
            (nth (sort.partition Instances.sortInterface data a b pivot).1
              (sort.partition Instances.sortInterface data a b pivot).2.1))
      ∧ (∀ k, (sort.partition Instances.sortInterface data a b pivot).2.1 < k → k < b →
          nameLE (nth (sort.partition Instances.sortInterface data a b pivot).1
              (sort.partition Instances.sortInterface data a b pivot).2.1)
            (nth (sort.partition Instances.sortInterface data a b pivot).1 k)) := by
  unfold sort.partition
  have hI : ∀ (d : Instances) (i j : Nat),
      Instances.sortInterface.Swap d i j = Instances.Swap d i j := fun _ _ _ => rfl
  simp only [hI]
  have hsw0 : Shuffle a b data (Instances.Swap data a pivot) :=
    Shuffle.swap a b data a pivot (Nat.le_refl _) (by omega) hap hpb
  have hlen0 := swap_length data a pivot
  generalize hd1 : Instances.Swap data a pivot = data1 at hsw0 hlen0 ⊢
  have hb1 : b ≤ data1.length := by rw [hlen0]; exact hb
  generalize hi1 : sort.scanUp (fun k => Instances.sortInterface.Less data1 k a)
    (b - 1 + 1 - (a + 1)) (a + 1) (b - 1) = i1
  generalize hj1 : sort.scanDown (fun k => !(Instances.sortInterface.Less data1 k a))
    (b - 1 + 1 - i1) i1 (b - 1) = j1
  obtain ⟨r1, r2, r3, r4, r5, r6⟩ :=
    partition_round a b (nth data1 a) data1 (a + 1) (b - 1) (by omega) (by omega) (by omega) rfl
      (by intro k h1 h2; omega) (by intro k h1 h2; omega) i1 j1 hi1.symm hj1.symm
  split
  · next hgt =>
    have hfin := partition_final a b j1 (nth data1 a) data1 hb1 (by omega) (by omega) rfl
      (fun k h1 h2 => r4 k h1 (by omega)) r5
    dsimp only
    exact ⟨hsw0.trans hfin.1, by omega, by omega, hfin.2.1, hfin.2.2⟩
  · next hgt =>
    obtain ⟨s1, s2, s3⟩ := r6 (by omega)
    have hsw : ∀ q, nth (Instances.Swap data1 i1 j1) q
        = if q = j1 then nth data1 i1 else if q = i1 then nth data1 j1 else nth data1 q :=
      fun q => nth_swap data1 i1 j1 q (by omega) (by omega)
    have hlen := swap_length data1 i1 j1
    have hsw1 : Shuffle a b data1 (Instances.Swap data1 i1 j1) :=
      Shuffle.swap a b data1 i1 j1 (by omega) (by omega) (by omega) (by omega)
    have h := partition_loop_spec a b (nth data1 a) (b - a + 1) (Instances.Swap data1 i1 j1)
      (i1 + 1) (j1 - 1) (by rw [hlen]; exact hb1) (by omega) (by omega) (by omega) (by omega)
      (by rw [hsw a, if_neg (by omega), if_neg (by omega)])
      (by
        intro k hak hk
        rw [hsw k]
        split_ifs
        all_goals first
          | (exfalso; omega)
          | exact s3
          | exact r4 _ (by omega) (by omega))
      (by
        intro k hk hkb
        rw [hsw k]
        split_ifs
        all_goals first
          | (exfalso; omega)
          | exact s2
          | exact r5 _ (by omega) (by omega))
    dsimp only
    generalize sort.partition.loop Instances.sortInterface a (b - a + 1)
      (Instances.Swap data1 i1 j1) (i1 + 1) (j1 - 1) = r at h ⊢
    obtain ⟨t1, t2, t3, t4, t5⟩ := h
    have hl2 : b ≤ r.1.length := by rw [t1.length_eq, hlen]; exact hb1
    have hPa : nth r.1 a = nth data1 a := by
      rw [t1.nth_outside (by rw [hlen]; exact hb1) a (by omega), hsw a, if_neg (by omega),
        if_neg (by omega)]
    have hfin := partition_final a b r.2 (nth data1 a) r.1 hl2 t2 t3 hPa t4 t5
    exact ⟨(hsw0.trans hsw1).trans ((t1.mono (by omega) (Nat.le_refl _)).trans hfin.1),
      t2, t3, hfin.2.1, hfin.2.2⟩

/-! ### `partitionEqual` -/

theorem partitionEqual_loop_spec (a b : Nat) (P : Instance) (fuel : Nat) (data : Instances)
    (i j : Nat) (hb : b ≤ data.length) (hai : a < i) (hij : i ≤ j + 1) (hjb : j < b)
    (hf : j + 1 - i < fuel) (hP : nth data a = P)
    (hleft : ∀ k, a < k → k < i → nameLE (nth data k) P) :
    Shuffle (a + 1) b data (sort.partitionEqual.loop Instances.sortInterface a fuel data i j).1
      ∧ a < (sort.partitionEqual.loop Instances.sortInterface a fuel data i j).2
      ∧ (sort.partitionEqual.loop Instances.sortInterface a fuel data i j).2 ≤ b
      ∧ (∀ k, a < k → k < (sort.partitionEqual.loop Instances.sortInterface a fuel data i j).2 →
          nameLE (nth (sort.partitionEqual.loop Instances.sortInterface a fuel data i j).1 k)
            P) := by
  induction fuel generalizing data i j with
  | zero => omega
  | succ f ih =>
    unfold sort.partitionEqual.loop
    have hI : ∀ (d : Instances) (i j : Nat),
        Instances.sortInterface.Swap d i j = Instances.Swap d i j := fun _ _ _ => rfl
    simp only [hI]
    generalize hi1 : sort.scanUp (fun k => !(Instances.sortInterface.Less data a k)) (j + 1 - i)
      i j = i1
    generalize hj1 : sort.scanDown (fun k => Instances.sortInterface.Less data a k)
      (j + 1 - i1) i1 j = j1
    obtain ⟨u1, u2, u3, u4⟩ :=
      scanUp_spec (fun k => !(Instances.sortInterface.Less data a k)) (j + 1 - i) i j
        (Nat.le_refl _)
    rw [hi1] at u1 u2 u3 u4
    obtain ⟨d1, d2, d3, d4⟩ :=
      scanDown_spec (fun k => Instances.sortInterface.Less data a k) (j + 1 - i1) i1 j
        (by omega) (Nat.le_refl _)
    rw [hj1] at d1 d2 d3 d4
    have hi1j := u2 hij
    have hj1i := d2 hi1j
    have hleft1 : ∀ k, a < k → k < i1 → nameLE (nth data k) P := by
      intro k hak hk
      by_cases hki : k < i
      · exact hleft k hak hki
      · have := u3 k (by omega) hk
        simp only [Bool.not_eq_true'] at this
        rw [less_false_iff, hP] at this
        exact this
    split
    · next hgt => exact ⟨Shuffle.refl _, by omega, by omega, hleft1⟩
    · next hgt =>
      have e1 := u4 (by omega)
      have e2 := d4 (by omega)
      simp only [Bool.not_eq_false'] at e1
      have hne : i1 ≠ j1 := by
        intro h
        rw [h] at e1
        rw [e1] at e2
        cases e2
      rw [less_false_iff, hP] at e2
      have hsw : ∀ q, nth (Instances.Swap data i1 j1) q
          = if q = j1 then nth data i1 else if q = i1 then nth data j1 else nth data q :=
        fun q => nth_swap data i1 j1 q (by omega) (by omega)
      have hlen := swap_length data i1 j1
      have h := ih (Instances.Swap data i1 j1) (i1 + 1) (j1 - 1) (by rw [hlen]; exact hb)
        (by omega) (by omega) (by omega) (by omega)
        (by rw [hsw a, if_neg (by omega), if_neg (by omega)]; exact hP)
        (by
          intro k hak hk
          rw [hsw k]
          split_ifs
          all_goals first
            | (exfalso; omega)
            | exact e2
            | exact hleft1 _ (by omega) (by omega))
      exact ⟨(Shuffle.swap (a + 1) b data i1 j1 (by omega) (by omega) (by omega)
        (by omega)).trans h.1, h.2⟩

/-- The function `partitionEqual` gathers at the front of the range elements that are
at most the pivot. -/
theorem partitionEqual_spec (data : Instances) (a b pivot : Nat) (hb : b ≤ data.length)
    (hap : a ≤ pivot) (hpb : pivot < b) :
    Shuffle a b data (sort.partitionEqual Instances.sortInterface data a b pivot).1
      ∧ a < (sort.partitionEqual Instances.sortInterface data a b pivot).2
      ∧ (sort.partitionEqual Instances.sortInterface data a b pivot).2 ≤ b
      ∧ (∀ k, a ≤ k → k < (sort.partitionEqual Instances.sortInterface data a b pivot).2 →
          nameLE (nth (sort.partitionEqual Instances.sortInterface data a b pivot).1 k)
            (nth data pivot)) := by
  unfold sort.partitionEqual
  have hI : ∀ (d : Instances) (i j : Nat),
      Instances.sortInterface.Swap d i j = Instances.Swap d i j := fun _ _ _ => rfl
  simp only [hI]
  have hsw : ∀ q, nth (Instances.Swap data a pivot) q
      = if q = pivot then nth data a else if q = a then nth data pivot else nth data q :=
    fun q => nth_swap data a pivot q (by omega) (by omega)
  have hPa : nth (Instances.Swap data a pivot) a = nth data pivot := by
    rw [hsw a]
    by_cases h : a = pivot
    · rw [if_pos h, h]
    · rw [if_neg h, if_pos rfl]
  have hlen := swap_length data a pivot
  have h := partitionEqual_loop_spec a b (nth data pivot) (b - a + 1) (Instances.Swap data a pivot)
    (a + 1) (b - 1) (by rw [hlen]; exact hb) (by omega) (by omega) (by omega) (by omega) hPa
    (by intro k h1 h2; omega)
  generalize sort.partitionEqual.loop Instances.sortInterface a (b - a + 1)
    (Instances.Swap data a pivot) (a + 1) (b - 1) = r at h ⊢
  obtain ⟨t1, t2, t3, t4⟩ := h
  refine ⟨(Shuffle.swap a b data a pivot (Nat.le_refl _) (by omega) hap hpb).trans
    (t1.mono (by omega) (Nat.le_refl _)), t2, t3, ?_⟩
  intro k hak hk
  by_cases hka : k = a
  · subst hka
    rw [t1.nth_outside (by rw [hlen]; exact hb) k (by omega), hPa]
    exact nameLE_refl _
  · exact t4 k (by omega) hk

/-! ### `partialInsertionSort` -/

theorem SortedIn.extend {a i i1 : Nat} {s : Instances} (h : SortedIn a i s) (hai : a < i)
    (hadj : ∀ k, i ≤ k → k < i1 → nameLE (nth s (k - 1)) (nth s k)) : SortedIn a i1 s := by
  induction i1 with
  | zero => intro p q _ _ hq; omega
  | succ m ih =>
    by_cases hm : m < i
    · intro p q hp hpq hq
      exact h p q hp hpq (by omega)
    · have h1 : SortedIn a m s := ih (fun k hk hk2 => hadj k hk (by omega))
      refine SortedIn.glue h1 (SortedIn.of_small _ (Nat.le_refl _)) ?_
      intro p q hp hpm hmq hq
      have hqm : q = m := by omega
      subst hqm
      have := hadj q (by omega) (by omega)
      exact nameLE_trans (h1 p (q - 1) hp (by omega) (by omega)) this

theorem shiftLeft_eq_inner (a : Nat) (j : Nat) (data : Instances) (haj : a ≤ j)
    (hj : j < data.length) (hlow : a = 0 ∨ nameLE (nth data (a - 1)) (nth data j)) :
    sort.partialInsertionSort.shiftLeft Instances.sortInterface j data
      = sort.insertionSort.inner Instances.sortInterface a j data := by
  induction j generalizing data with
  | zero => rfl
  | succ k ih =>
    unfold sort.partialInsertionSort.shiftLeft sort.insertionSort.inner
    by_cases hless : Instances.sortInterface.Less data (k + 1) k = true
    · have hka : k + 1 > a := by
        by_contra hcon
        have hak : a = k + 1 := by omega
        rcases hlow with h0 | hlow
        · omega
        · rw [less_true_iff] at hless
          apply hless
          have e : a - 1 = k := by omega
          rw [e] at hlow
          exact hlow
      have hsw : ∀ q, nth (Instances.Swap data (k + 1) k) q
          = if q = k then nth data (k + 1) else if q = k + 1 then nth data k else nth data q :=
        fun q => nth_swap data (k + 1) k q (by omega) (by omega)
      have hI : ∀ (d : Instances) (i j : Nat),
          Instances.sortInterface.Swap d i j = Instances.Swap d i j := fun _ _ _ => rfl
      simp only [hless, hka, hI, Bool.not_true, Bool.false_eq_true, if_false, decide_True,
        Bool.and_self, if_true]
      refine ih _ (by omega) (by rw [swap_length]; omega) ?_
      rcases hlow with h0 | hlow
      · exact Or.inl h0
      · right
        rw [hsw (a - 1), hsw k]
        split_ifs
        all_goals first
          | (exfalso; omega)
          | exact hlow
          | exact nameLE_refl _
    · simp [hless]

theorem shiftRight_shuffle (b : Nat) (fuel : Nat) (data : Instances) (j i : Nat)
    (hij : i < j) :
    Shuffle i b data
      (sort.partialInsertionSort.shiftRight Instances.sortInterface b fuel data j) := by
  induction fuel generalizing data j with
  | zero => exact Shuffle.refl _
  | succ f ih =>
    unfold sort.partialInsertionSort.shiftRight
    split
    · next hjb =>
      split
      · exact Shuffle.refl _
      · exact (Shuffle.swap i b data j (j - 1) (by omega) hjb (by omega) (by omega)).trans
          (ih _ (j + 1) (by omega))
    · exact Shuffle.refl _

theorem partialInsertionSort_loop_spec (a b : Nat) (steps : Nat) (data : Instances) (i : Nat)
    (hb : b ≤ data.length) (hai : a < i) (hib : i ≤ b) (hs : SortedIn a i data)
    (hlow : LowerBound a b data) :
    Shuffle a b data (sort.partialInsertionSort.loop Instances.sortInterface a b steps data i).1
      ∧ ((sort.partialInsertionSort.loop Instances.sortInterface a b steps data i).2 = true →
        SortedIn a b
          (sort.partialInsertionSort.loop Instances.sortInterface a b steps data i).1) := by
  induction steps generalizing data i with
  | zero =>
    unfold sort.partialInsertionSort.loop
    exact ⟨Shuffle.refl _, fun h => by cases h⟩
  | succ n ih =>
    unfold sort.partialInsertionSort.loop
    have hI : ∀ (d : Instances) (i j : Nat),
        Instances.sortInterface.Swap d i j = Instances.Swap d i j := fun _ _ _ => rfl
    simp only [hI]
    obtain ⟨u1, u2, u3, u4⟩ :=
      scanUp_spec (fun k => !(Instances.sortInterface.Less data k (k - 1))) (b - i) i (b - 1)
        (by omega)
    generalize sort.scanUp (fun k => !(Instances.sortInterface.Less data k (k - 1))) (b - i) i
      (b - 1) = i1 at u1 u2 u3 u4 ⊢
    have hi1b : i1 ≤ b := by have := u2 (by omega); omega
    have hs1 : SortedIn a i1 data := by
      refine hs.extend hai ?_
      intro k hk hk2
      have := u3 k hk hk2
      simp only [Bool.not_eq_true'] at this
      rw [less_false_iff] at this
      exact this
    split
    · exact ⟨Shuffle.refl _, fun _ => by subst_vars; exact hs1⟩
    · next hne =>
      split
      · exact ⟨Shuffle.refl _, fun h => by cases h⟩
      · have hless := u4 (by omega)
        simp only [Bool.not_eq_false'] at hless
        -- the exchange of the pair out of order
        have hsw1 : Shuffle a b data (Instances.Swap data i1 (i1 - 1)) :=
          Shuffle.swap a b data i1 (i1 - 1) (by omega) (by omega) (by omega) (by omega)
        have hsw : ∀ q, nth (Instances.Swap data i1 (i1 - 1)) q
            = if q = i1 - 1 then nth data i1 else if q = i1 then nth data (i1 - 1)
              else nth data q :=
          fun q => nth_swap data i1 (i1 - 1) q (by omega) (by omega)
        have hlen1 := swap_length data i1 (i1 - 1)
        generalize hd1 : Instances.Swap data i1 (i1 - 1) = data1 at hsw1 hsw hlen1 ⊢
        have hs1' : SortedIn a (i1 - 1) data1 := by
          intro p q hp hpq hq
          rw [hsw p, hsw q, if_neg (by omega), if_neg (by omega), if_neg (by omega),
            if_neg (by omega)]
          exact hs1 p q hp hpq (by omega)
        have hlow1 : LowerBound a b data1 := hlow.shuffle hsw1 hb
        -- the smaller one moves to the left
        have hleft : Shuffle a b data1
              (if i1 - a ≥ 2 then
                sort.partialInsertionSort.shiftLeft Instances.sortInterface (i1 - 1) data1
                else data1)
            ∧ SortedIn a i1
              (if i1 - a ≥ 2 then
                sort.partialInsertionSort.shiftLeft Instances.sortInterface (i1 - 1) data1
                else data1) := by
          split
          · rw [shiftLeft_eq_inner a (i1 - 1) data1 (by omega) (by omega) (by
              rcases hlow1 with h0 | h1
              · exact Or.inl h0
              · exact Or.inr (h1 (i1 - 1) (by omega) (by omega)))]
            have h := insertionSort_inner_sorted a (i1 - 1) data1 (i1 - 1) (by omega)
              (Nat.le_refl _) (by omega) hs1' (SortedIn.of_small _ (by omega))
              (by intro p q _ _ h3 h4; omega)
            have e : i1 - 1 + 1 = i1 := by omega
            rw [e] at h
            exact ⟨h.1.mono (Nat.le_refl _) hi1b, h.2⟩
          · exact ⟨Shuffle.refl _, SortedIn.of_small _ (by omega)⟩
        generalize (if i1 - a ≥ 2 then
            sort.partialInsertionSort.shiftLeft Instances.sortInterface (i1 - 1) data1
            else data1) = data2 at hleft ⊢
        have hlen2 : data2.length = data.length := by rw [hleft.1.length_eq, hlen1]
        -- the greater one moves to the right
        have hright : Shuffle i1 b data2
              (if b - i1 ≥ 2 then
                sort.partialInsertionSort.shiftRight Instances.sortInterface b (b - i1) data2
                  (i1 + 1)
                else data2) := by
          split
          · exact shiftRight_shuffle b _ data2 (i1 + 1) i1 (by omega)
          · exact Shuffle.refl _
        generalize (if b - i1 ≥ 2 then
            sort.partialInsertionSort.shiftRight Instances.sortInterface b (b - i1) data2
              (i1 + 1)
            else data2) = data3 at hright ⊢
        have hsh : Shuffle a b data data3 :=
          (hsw1.trans hleft.1).trans (hright.mono (by omega) (Nat.le_refl _))
        have h := ih data3 i1 (by rw [hsh.length_eq]; exact hb) (by omega) hi1b
          (hleft.2.shuffle_outside hright (by rw [hlen2]; exact hb) (Or.inr (Nat.le_refl _)))
          (hlow.shuffle hsh hb)
        exact ⟨hsh.trans h.1, h.2⟩

/-- The function `partialInsertionSort` answers `true` only when it leaves the range
sorted. -/
theorem partialInsertionSort_spec (data : Instances) (a b : Nat) (hb : b ≤ data.length)
    (hab : a < b) (hlow : LowerBound a b data) :
    Shuffle a b data (sort.partialInsertionSort Instances.sortInterface data a b).1
      ∧ ((sort.partialInsertionSort Instances.sortInterface data a b).2 = true →
        SortedIn a b (sort.partialInsertionSort Instances.sortInterface data a b).1) :=
  partialInsertionSort_loop_spec a b 5 data (a + 1) hb (by omega) (by omega)
    (SortedIn.of_small _ (Nat.le_refl _)) hlow

/-! ### `heapSort` -/

theorem siftDown_loop_spec (first hi lo : Nat) (fuel : Nat) (data : Instances) (root : Nat)
    (hb : first + hi ≤ data.length) (hlo : lo ≤ root) (hf : hi - root ≤ fuel)
    (hheap : ∀ k, lo ≤ k → k < hi → k ≠ root → HeapAt first hi data k)
    (hpar : ∀ x y, 1 ≤ root → lo ≤ (root - 1) / 2 →
      (x = first + (2 * root + 1) ∨ x = first + (2 * root + 2)) → x < first + hi →
      y = first + (root - 1) / 2 → nameLE (nth data x) (nth data y)) :
    Shuffle first (first + hi) data
        (sort.siftDown.loop Instances.sortInterface hi first fuel data root)
      ∧ ∀ k, lo ≤ k → k < hi →
          HeapAt first hi (sort.siftDown.loop Instances.sortInterface hi first fuel data root)
            k := by
  induction fuel generalizing data root with
  | zero =>
    unfold sort.siftDown.loop
    exact ⟨Shuffle.refl _, fun k h1 h2 => hheap k h1 h2 (by omega)⟩
  | succ f ih =>
    unfold sort.siftDown.loop
    have hI : ∀ (d : Instances) (i j : Nat),
        Instances.sortInterface.Swap d i j = Instances.Swap d i j := fun _ _ _ => rfl
    simp only [hI]
    split
    · next hleaf =>
      refine ⟨Shuffle.refl _, fun k h1 h2 => ?_⟩
      by_cases hk : k = root
      · subst hk
        exact ⟨fun h => by omega, fun h => by omega⟩
      · exact hheap k h1 h2 hk
    · next hleaf =>
      -- the greater child
      have hc : ∃ c, c = (if 2 * root + 1 + 1 < hi
            && Instances.sortInterface.Less data (first + (2 * root + 1))
              (first + (2 * root + 1) + 1)
            then 2 * root + 1 + 1 else 2 * root + 1)
          ∧ (c = 2 * root + 1 ∨ c = 2 * root + 2) ∧ c < hi
          ∧ ∀ x y, (x = first + (2 * root + 1) ∨ x = first + (2 * root + 2)) →
              x < first + hi → y = first + c → nameLE (nth data x) (nth data y) := by
        refine ⟨_, rfl, ?_⟩
        split
        · next hcond =>
          simp only [Bool.and_eq_true, decide_eq_true_eq] at hcond
          obtain ⟨h1, h2⟩ := hcond
          rw [less_true_iff] at h2
          have h3 := nameLE_of_not _ _ h2
          refine ⟨Or.inr rfl, h1, ?_⟩
          intro x y hx hxh hy
          subst hy
          rcases hx with hx | hx
          · subst hx; exact h3
          · subst hx; exact nameLE_refl _
        · next hcond =>
          simp only [Bool.and_eq_true, decide_eq_true_eq, not_and, Bool.not_eq_true] at hcond
          refine ⟨Or.inl rfl, by omega, ?_⟩
          intro x y hx hxh hy
          subst hy
          rcases hx with hx | hx
          · subst hx; exact nameLE_refl _
          · subst hx
            have := hcond (by omega)
            rw [less_false_iff] at this
            exact this
      obtain ⟨c, hceq, hc12, hchi, hmax⟩ := hc
      rw [← hceq]
      split
      · next hnl =>
        simp only [Bool.not_eq_true', ] at hnl
        rw [less_false_iff] at hnl
        refine ⟨Shuffle.refl _, fun k h1 h2 => ?_⟩
        by_cases hk : k = root
        · subst hk
          exact ⟨fun h => nameLE_trans (hmax _ _ (Or.inl rfl) (by omega) rfl) hnl,
            fun h => nameLE_trans (hmax _ _ (Or.inr rfl) (by omega) rfl) hnl⟩
        · exact hheap k h1 h2 hk
      · next hnl =>
        simp only [Bool.not_eq_true', Bool.not_eq_false] at hnl
        rw [less_true_iff] at hnl
        have hrc : ∀ x y, x = first + root → y = first + c →
            nameLE (nth data x) (nth data y) := by
          intro x y hx hy
          subst hx; subst hy
          exact nameLE_of_not _ _ hnl
        have hheapG : ∀ x y k, lo ≤ k → k < hi → k ≠ root →
            (x = first + (2 * k + 1) ∨ x = first + (2 * k + 2)) → x < first + hi →
            y = first + k → nameLE (nth data x) (nth data y) := by
          intro x y k h1 h2 h3 hx hxh hy
          subst hy
          rcases hx with hx | hx
          · subst hx; exact (hheap k h1 h2 h3).1 (by omega)
          · subst hx; exact (hheap k h1 h2 h3).2 (by omega)
        have hsw : ∀ q, nth (Instances.Swap data (first + root) (first + c)) q
            = if q = first + c then nth data (first + root)
              else if q = first + root then nth data (first + c) else nth data q :=
          fun q => nth_swap data (first + root) (first + c) q (by omega) (by omega)
        have hlen := swap_length data (first + root) (first + c)
        have h := ih (Instances.Swap data (first + root) (first + c)) c
          (by rw [hlen]; exact hb) (by omega) (by omega)
          (by
            intro k h1 h2 h3
            constructor
            · intro h4
              rw [hsw (first + (2 * k + 1)), hsw (first + k)]
              split_ifs
              all_goals first
                | (exfalso; omega)
                | exact nameLE_refl _
                | exact hrc _ _ (by omega) (by omega)
                | exact hmax _ _ (by omega) (by omega) (by omega)
                | exact hpar _ _ (by omega) (by omega) (by omega) (by omega) (by omega)
                | exact hheapG _ _ k (by omega) (by omega) (by omega) (by omega) (by omega)
                    (by omega)
            · intro h4
              rw [hsw (first + (2 * k + 2)), hsw (first + k)]
              split_ifs
              all_goals first
                | (exfalso; omega)
                | exact nameLE_refl _
                | exact hrc _ _ (by omega) (by omega)
                | exact hmax _ _ (by omega) (by omega) (by omega)
                | exact hpar _ _ (by omega) (by omega) (by omega) (by omega) (by omega)
                | exact hheapG _ _ k (by omega) (by omega) (by omega) (by omega) (by omega)
                    (by omega))
          (by
            intro x y h1 h2 hx hxh hy
            rw [hsw x, hsw y]
            split_ifs
            all_goals first
              | (exfalso; omega)
              | exact hheapG _ _ c (by omega) (by omega) (by omega) (by omega) (by omega)
                  (by omega))
        exact ⟨(Shuffle.swap first (first + hi) data (first + root) (first + c) (by omega)
          (by omega) (by omega) (by omega)).trans h.1, h.2⟩

/-- The function `siftDown` restores the heap below `lo` when only the node `lo` may
be out of place. -/
theorem siftDown_spec (data : Instances) (lo hi first : Nat) (hb : first + hi ≤ data.length)
    (hheap : ∀ k, lo < k → k < hi → HeapAt first hi data k) :
    Shuffle first (first + hi) data (sort.siftDown Instances.sortInterface data lo hi first)
      ∧ ∀ k, lo ≤ k → k < hi →
          HeapAt first hi (sort.siftDown Instances.sortInterface data lo hi first) k := by
  unfold sort.siftDown
  refine siftDown_loop_spec first hi lo hi data lo hb (Nat.le_refl _) (by omega)
    (fun k h1 h2 h3 => hheap k (by omega) h2) ?_
  intro x y h1 h2
  omega

/-- In a heap no element is above the root. -/
theorem heap_root_max (first n : Nat) (s : Instances)
    (hheap : ∀ k, k < n → HeapAt first n s k) (k : Nat) (hk : k < n) :
    nameLE (nth s (first + k)) (nth s first) := by
  induction k using Nat.strong_induction_on with
  | _ k ih =>
    by_cases hk0 : k = 0
    · subst hk0; exact nameLE_refl _
    · have hp := ih ((k - 1) / 2) (by omega) (by omega)
      have hh := hheap ((k - 1) / 2) (by omega)
      by_cases hodd : k = 2 * ((k - 1) / 2) + 1
      · have := hh.1 (by omega)
        rw [← hodd] at this
        exact nameLE_trans this hp
      · have hev : k = 2 * ((k - 1) / 2) + 2 := by omega
        have := hh.2 (by omega)
        rw [← hev] at this
        exact nameLE_trans this hp

theorem heapSort_build (first hi : Nat) (n : Nat) (data : Instances)
    (hb : first + hi ≤ data.length)
    (hheap : ∀ k, n ≤ k → k < hi → HeapAt first hi data k) :
    Shuffle first (first + hi) data
        ((List.range n).reverse.foldl
          (fun d i => sort.siftDown Instances.sortInterface d i hi first) data)
      ∧ ∀ k, k < hi →
          HeapAt first hi
            ((List.range n).reverse.foldl
              (fun d i => sort.siftDown Instances.sortInterface d i hi first) data) k := by
  induction n generalizing data with
  | zero => exact ⟨Shuffle.refl _, fun k hk => hheap k (Nat.zero_le _) hk⟩
  | succ m ih =>
    rw [List.range_succ, List.reverse_append, List.reverse_singleton, List.singleton_append,
      List.foldl_cons]
    have h1 := siftDown_spec data m hi first hb (fun k hk hk2 => hheap k (by omega) hk2)
    have h2 := ih (sort.siftDown Instances.sortInterface data m hi first)
      (by rw [h1.1.length_eq]; exact hb) h1.2
    exact ⟨h1.1.trans h2.1, h2.2⟩

theorem heapSort_pop (first hi : Nat) (n : Nat) (data : Instances)
    (hb : first + hi ≤ data.length) (hn : n ≤ hi)
    (hheap : ∀ k, k < n → HeapAt first n data k)
    (hsorted : SortedIn (first + n) (first + hi) data)
    (hcross : ∀ p q, first ≤ p → p < first + n → first + n ≤ q → q < first + hi →
      nameLE (nth data p) (nth data q)) :
    Shuffle first (first + hi) data
        ((List.range n).reverse.foldl
          (fun d i => sort.siftDown Instances.sortInterface
            (Instances.sortInterface.Swap d first (first + i)) 0 i first) data)
      ∧ SortedIn first (first + hi)
        ((List.range n).reverse.foldl
          (fun d i => sort.siftDown Instances.sortInterface
            (Instances.sortInterface.Swap d first (first + i)) 0 i first) data) := by
  induction n generalizing data with
  | zero => exact ⟨Shuffle.refl _, hsorted⟩
  | succ i ih =>
    rw [List.range_succ, List.reverse_append, List.reverse_singleton, List.singleton_append,
      List.foldl_cons]
    have hI : ∀ (d : Instances) (i j : Nat),
        Instances.sortInterface.Swap d i j = Instances.Swap d i j := fun _ _ _ => rfl
    rw [hI]
    have hsw : ∀ q, nth (Instances.Swap data first (first + i)) q
        = if q = first + i then nth data first
          else if q = first then nth data (first + i) else nth data q :=
      fun q => nth_swap data first (first + i) q (by omega) (by omega)
    have hlen := swap_length data first (first + i)
    have hsh1 : Shuffle first (first + hi) data (Instances.Swap data first (first + i)) :=
      Shuffle.swap first (first + hi) data first (first + i) (Nat.le_refl _) (by omega)
        (by omega) (by omega)
    have hmax : ∀ k, k < i + 1 → nameLE (nth data (first + k)) (nth data first) :=
      heap_root_max first (i + 1) data hheap
    generalize hd1 : Instances.Swap data first (first + i) = data1 at hsw hlen hsh1 ⊢
    have hb1 : first + i ≤ data1.length := by rw [hlen]; omega
    have h1 := siftDown_spec data1 0 i first hb1 (by
      intro k hk0 hki
      have hh := hheap k (by omega)
      constructor
      · intro h4
        rw [hsw (first + (2 * k + 1)), hsw (first + k), if_neg (by omega), if_neg (by omega),
          if_neg (by omega), if_neg (by omega)]
        exact hh.1 (by omega)
      · intro h4
        rw [hsw (first + (2 * k + 2)), hsw (first + k), if_neg (by omega), if_neg (by omega),
          if_neg (by omega), if_neg (by omega)]
        exact hh.2 (by omega))
    generalize hd2 : sort.siftDown Instances.sortInterface data1 0 i first = data2 at h1 ⊢
    obtain ⟨hsh2, hheap2⟩ := h1
    have hout : ∀ q, first + i ≤ q → nth data2 q = nth data1 q :=
      fun q hq => hsh2.nth_outside hb1 q (Or.inr hq)
    have hlen2 : data2.length = data.length := by rw [hsh2.length_eq, hlen]
    have h2 := ih data2 (by rw [hlen2]; exact hb) (by omega)
      (fun k hk => hheap2 k (Nat.zero_le _) hk)
      (by
        intro p q hp hpq hq
        rw [hout p (by omega), hout q (by omega), hsw p, hsw q]
        split_ifs
        all_goals first
          | (exfalso; omega)
          | exact nameLE_refl _
          | exact hcross _ _ (by omega) (by omega) (by omega) (by omega)
          | exact hsorted _ _ (by omega) (by omega) (by omega))
      (by
        intro p q hp hpn hnq hq
        have hall := hsh2.forall_in hb1
          (fun x => nameLE x (nth data first)
            ∧ ∀ q, first + i + 1 ≤ q → q < first + hi → nameLE x (nth data q))
          (by
            intro k hk hki
            rw [hsw k]
            split_ifs
            all_goals first
              | (exfalso; omega)
              | exact ⟨by
                  have := hmax (k - first) (by omega)
                  have e : first + (k - first) = k := by omega
                  rw [e] at this
                  exact this,
                  fun q hq1 hq2 => hcross _ _ (by omega) (by omega) (by omega) (by omega)⟩
              | exact ⟨by
                  have := hmax i (by omega)
                  exact this,
                  fun q hq1 hq2 => hcross _ _ (by omega) (by omega) (by omega) (by omega)⟩)
          p hp hpn
        rw [hout q (by omega), hsw q]
        split_ifs
        all_goals first
          | (exfalso; omega)
          | exact hall.1
          | exact hall.2 _ (by omega) (by omega))
    exact ⟨(hsh1.trans (hsh2.mono (Nat.le_refl _) (by omega))).trans h2.1, h2.2⟩

/-- The function `heapSort` sorts the range it is given. -/
theorem heapSort_sorted (data : Instances) (a b : Nat) (hab : a ≤ b) (hb : b ≤ data.length) :
    Shuffle a b data (sort.heapSort Instances.sortInterface data a b)
      ∧ SortedIn a b (sort.heapSort Instances.sortInterface data a b) := by
  unfold sort.heapSort
  dsimp only
  have e : a + (b - a) = b := by omega
  have h1 := heapSort_build a (b - a) ((b - a - 1) / 2 + 1) data (by omega) (by
    intro k hk hk2
    exact ⟨fun h => by omega, fun h => by omega⟩)
  generalize (List.range ((b - a - 1) / 2 + 1)).reverse.foldl
    (fun d i => sort.siftDown Instances.sortInterface d i (b - a) a) data = data1 at h1 ⊢
  have h2 := heapSort_pop a (b - a) (b - a) data1 (by rw [h1.1.length_eq]; omega)
    (Nat.le_refl _) h1.2 (SortedIn.of_small _ (by omega)) (by intro p q _ _ _ _; omega)
  rw [e] at h1 h2
  exact ⟨h1.1.trans h2.1, h2.2⟩

theorem Partitioned.shuffle_left {a mid b : Nat} {s t : Instances} (h : Partitioned a mid b s)
    (hs : Shuffle a mid s t) (hmb : mid < b) (hb : b ≤ s.length) : Partitioned a mid b t := by
  have hmid : nth t mid = nth s mid := hs.nth_outside (by omega) mid (Or.inr (Nat.le_refl _))
  constructor
  · intro k hak hkm
    rw [hmid]
    exact hs.forall_in (by omega) (fun x => nameLE x (nth s mid)) h.1 k hak hkm
  · intro k hmk hkb
    rw [hmid, hs.nth_outside (by omega) k (Or.inr (by omega))]
    exact h.2 k hmk hkb

theorem Partitioned.shuffle_right {a mid b : Nat} {s t : Instances} (h : Partitioned a mid b s)
    (hs : Shuffle (mid + 1) b s t) (hb : b ≤ s.length) : Partitioned a mid b t := by
  have hmid : nth t mid = nth s mid := hs.nth_outside hb mid (Or.inl (by omega))
  constructor
  · intro k hak hkm
    rw [hmid, hs.nth_outside hb k (Or.inl (by omega))]
    exact h.1 k hak hkm
  · intro k hmk hkb
    rw [hmid]
    exact hs.forall_in hb (fun x => nameLE (nth s mid) x)
      (fun k h1 h2 => h.2 k (by omega) h2) k (by omega) hkb

theorem Partitioned.sorted {a mid b : Nat} {s : Instances} (h : Partitioned a mid b s)
    (h1 : SortedIn a mid s) (h2 : SortedIn (mid + 1) b s) : SortedIn a b s := by
  have h3 : SortedIn a (mid + 1) s := by
    refine SortedIn.glue h1 (SortedIn.of_small _ (Nat.le_refl _)) ?_
    intro p q hp hpm hmq hq
    have : q = mid := by omega
    subst this
    exact h.1 p hp hpm
  refine SortedIn.glue h3 h2 ?_
  intro p q hp hpm hmq hq
  by_cases hpmid : p = mid
  · subst hpmid
    exact h.2 q (by omega) hq
  · exact nameLE_trans (h.1 p hp (by omega)) (h.2 q (by omega) hq)

theorem LowerBound.mono_right {a b b1 : Nat} {s : Instances} (h : LowerBound a b s)
    (hb : b1 ≤ b) : LowerBound a b1 s := by
  rcases h with h0 | h
  · exact Or.inl h0
  · exact Or.inr (fun k hk hk2 => h k hk (by omega))

theorem pdqsort_sorted (fuel : Nat) (data : Instances) (a b limit : Nat) (wb wp : Bool)
    (hf : b - a < fuel) (hab : a ≤ b) (hb : b ≤ data.length) (hlow : LowerBound a b data) :
    Shuffle a b data (sort.pdqsort Instances.sortInterface fuel data a b limit wb wp)
      ∧ SortedIn a b (sort.pdqsort Instances.sortInterface fuel data a b limit wb wp) := by
  induction fuel generalizing data a b limit wb wp with
  | zero => omega
  | succ f ih =>
    rw [sort.pdqsort]
    lift_lets
    intro data1 limit1 ph data2 pivot hint pis data3 r r1 data4 mid wasPartitioned leftLen
      rightLen balanceThreshold wasBalanced data5 wasBalanced1 data6
    by_cases h12 : b - a ≤ 12
    · rw [if_pos h12]
      exact insertionSort_sorted data a b hb
    · rw [if_neg h12]
      by_cases hlimit : limit = 0
      · rw [if_pos hlimit]
        exact heapSort_sorted data a b hab hb
      · rw [if_neg hlimit]
        have hs1 : Shuffle a b data data1 := by
          show Shuffle a b data (if (!wb) = true then _ else _)
          split
          · exact breakPatterns_shuffle data a b
          · exact Shuffle.refl _
        have hpr : a ≤ ph.1 ∧ ph.1 < b := choosePivot_range data1 a b (by omega)
        have hs2 : Shuffle a b data1 data2 := by
          show Shuffle a b data1 (if ph.2 = sort.sortedHint.decreasingHint then _ else _)
          split
          · exact reverseRange_shuffle data1 a b
          · exact Shuffle.refl _
        have hpv : a ≤ pivot ∧ pivot < b := by
          show a ≤ (if ph.2 = sort.sortedHint.decreasingHint then _ else _)
            ∧ (if ph.2 = sort.sortedHint.decreasingHint then _ else _) < b
          split <;> omega
        have hs12 : Shuffle a b data data2 := hs1.trans hs2
        have hb2 : b ≤ data2.length := by rw [hs12.length_eq]; exact hb
        have hlow2 : LowerBound a b data2 := hlow.shuffle hs12 hb
        have hpis : Shuffle a b data2 pis.1 ∧ (pis.2 = true → SortedIn a b pis.1) := by
          show Shuffle a b data2
              (if _ then sort.partialInsertionSort Instances.sortInterface data2 a b
                else (data2, false)).1
            ∧ ((if _ then sort.partialInsertionSort Instances.sortInterface data2 a b
                else (data2, false)).2 = true →
              SortedIn a b
                (if _ then sort.partialInsertionSort Instances.sortInterface data2 a b
                  else (data2, false)).1)
          split
          · exact partialInsertionSort_spec data2 a b hb2 (by omega) hlow2
          · exact ⟨Shuffle.refl _, fun h => by cases h⟩
        have hs3 : Shuffle a b data data3 := hs12.trans hpis.1
        have hb3 : b ≤ data3.length := by rw [hs3.length_eq]; exact hb
        have hlow3 : LowerBound a b data3 := hlow.shuffle hs3 hb
        have hsorted3 : pis.2 = true → SortedIn a b data3 := hpis.2
        have hr : Shuffle a b data3 r.1 ∧ a < r.2 ∧ r.2 ≤ b
            ∧ (∀ k, a ≤ k → k < r.2 → nameLE (nth r.1 k) (nth data3 pivot)) :=
          partitionEqual_spec data3 a b pivot hb3 hpv.1 hpv.2
        have hr1 : Shuffle a b data3 data4 ∧ a ≤ mid ∧ mid < b
            ∧ (∀ k, a ≤ k → k < mid → nameLE (nth data4 k) (nth data4 mid))
            ∧ (∀ k, mid < k → k < b → nameLE (nth data4 mid) (nth data4 k)) :=
          partition_spec data3 a b pivot hb3 hpv.1 hpv.2
        have hd5 : data5 = sort.pdqsort Instances.sortInterface f data4 a mid limit1 true true :=
          rfl
        have hd6 : data6
            = sort.pdqsort Instances.sortInterface f data4 (mid + 1) b limit1 true true := rfl
        have hd3 : pis.1 = data3 := rfl
        have hleft : leftLen = mid - a := rfl
        have hright : rightLen = b - mid := rfl
        clear_value data1 limit1 ph data2 pivot hint pis data3 r r1 data4 mid wasPartitioned
          leftLen rightLen balanceThreshold wasBalanced data5 wasBalanced1 data6
        by_cases hok : pis.2 = true
        · rw [if_pos hok, hd3]
          exact ⟨hs3, hsorted3 hok⟩
        · rw [if_neg hok]
          by_cases hpe : (decide (a > 0)
              && !Instances.sortInterface.Less data3 (a - 1) pivot) = true
          · rw [if_pos hpe]
            simp only [Bool.and_eq_true, decide_eq_true_eq, Bool.not_eq_true'] at hpe
            obtain ⟨ha0, hless⟩ := hpe
            rw [less_false_iff] at hless
            obtain ⟨hsr, hr2a, hr2b, hrleft⟩ := hr
            have hmin : ∀ k, a ≤ k → k < b → nameLE (nth data3 pivot) (nth data3 k) := by
              intro k hk hkb
              rcases hlow3 with h0 | h3
              · omega
              · exact nameLE_trans hless (h3 k hk hkb)
            have hmin2 : ∀ k, a ≤ k → k < b → nameLE (nth data3 pivot) (nth r.1 k) :=
              hsr.forall_in hb3 (fun x => nameLE (nth data3 pivot) x) hmin
            have hbr : b ≤ r.1.length := by rw [hsr.length_eq]; exact hb3
            have h := ih r.1 r.2 b limit1 wb wp (by omega) hr2b hbr
              (Or.inr (fun k hk hkb =>
                nameLE_trans (hrleft (r.2 - 1) (by omega) (by omega)) (hmin2 k (by omega) hkb)))
            refine ⟨(hs3.trans hsr).trans (h.1.mono (by omega) (Nat.le_refl _)), ?_⟩
            refine SortedIn.glue ?_ h.2 ?_
            · intro i j hi hij hj
              rw [h.1.nth_outside hbr i (Or.inl (by omega)),
                h.1.nth_outside hbr j (Or.inl (by omega))]
              exact nameLE_trans (hrleft i hi (by omega)) (hmin2 j (by omega) (by omega))
            · intro p q hp hpm hmq hq
              rw [h.1.nth_outside hbr p (Or.inl (by omega))]
              exact nameLE_trans (hrleft p hp hpm)
                (h.1.forall_in hbr (fun x => nameLE (nth data3 pivot) x)
                  (fun k hk hkb => hmin2 k (by omega) hkb) q hmq hq)
          · rw [if_neg hpe]
            obtain ⟨hs4, hma, hmb, hpl, hprt⟩ := hr1
            have hb4 : b ≤ data4.length := by rw [hs4.length_eq]; exact hb3
            have hlow4 : LowerBound a b data4 := hlow3.shuffle hs4 hb3
            have hpart : Partitioned a mid b data4 := ⟨hpl, hprt⟩
            by_cases hlr : leftLen < rightLen
            · rw [if_pos hlr]
              have h1 := ih data4 a mid limit1 true true (by omega) hma (by omega)
                (hlow4.mono_right (by omega))
              rw [← hd5] at h1
              have hb5 : b ≤ data5.length := by rw [h1.1.length_eq]; exact hb4
              have hpart5 : Partitioned a mid b data5 := hpart.shuffle_left h1.1 hmb hb4
              have h2 := ih data5 (mid + 1) b limit1 wasBalanced wasPartitioned (by omega)
                (by omega) hb5 (Or.inr (fun k hk hkb => by
                  have := hpart5.2 k (by omega) hkb
                  simpa using this))
              refine ⟨((hs3.trans hs4).trans (h1.1.mono (Nat.le_refl _) (by omega))).trans
                (h2.1.mono (by omega) (Nat.le_refl _)), ?_⟩
              exact (hpart5.shuffle_right h2.1 hb5).sorted
                (h1.2.shuffle_outside h2.1 hb5 (Or.inr (by omega))) h2.2
            · rw [if_neg hlr]
              have h1 := ih data4 (mid + 1) b limit1 true true (by omega) (by omega) hb4
                (Or.inr (fun k hk hkb => by
                  have := hpart.2 k (by omega) hkb
                  simpa using this))
              rw [← hd6] at h1
              have hb6 : b ≤ data6.length := by rw [h1.1.length_eq]; exact hb4
              have hpart6 : Partitioned a mid b data6 := hpart.shuffle_right h1.1 hb4
              have hlow6 : LowerBound a mid data6 := by
                rcases hlow4 with h0 | h4
                · exact Or.inl h0
                · right
                  intro k hk hkm
                  rw [h1.1.nth_outside hb4 (a - 1) (Or.inl (by omega)),
                    h1.1.nth_outside hb4 k (Or.inl (by omega))]
                  exact h4 k hk (by omega)
              have h2 := ih data6 a mid limit1 wasBalanced1 wasPartitioned (by omega) hma
                (by omega) hlow6
              refine ⟨((hs3.trans hs4).trans (h1.1.mono (by omega) (Nat.le_refl _))).trans
                (h2.1.mono (Nat.le_refl _) (by omega)), ?_⟩
              exact (hpart6.shuffle_left h2.1 hmb hb6).sorted h2.2
                (h1.2.shuffle_outside h2.1 (by omega) (Or.inl (by omega)))

/-- The function `sort.Sort`, applied to `Instances(instances)`, keeps its contract on
every input: with the budget given to its loops, the result is a rearrangement of the
input in ascending order of the names. -/
theorem sort_Sort_contract (data : Instances) :
    SortContract data (sort.Sort Instances.sortInterface data) := by
  unfold SortContract sort.Sort
  show (if data.length ≤ 1 then data else _).Perm data
    ∧ sort.IsSorted Instances.sortInterface (if data.length ≤ 1 then data else _) = true
  have hsorted : ∀ t : Instances, t.length = data.length → SortedIn 0 data.length t →
      sort.IsSorted Instances.sortInterface t = true := by
    intro t hlen hs
    unfold sort.IsSorted
    rw [List.all_eq_true]
    intro i hi
    have hi2 : i < data.length := by
      have := List.mem_range.mp hi
      rw [← hlen]
      exact this
    by_cases hi0 : i = 0
    · subst hi0; rfl
    · have hbeq : (i == 0) = false := by simpa using hi0
      rw [hbeq, Bool.false_or, Bool.not_eq_true', less_false_iff]
      exact hs (i - 1) i (Nat.zero_le _) (by omega) hi2
  split
  · next h1 =>
    exact ⟨List.Perm.refl _, hsorted data rfl (SortedIn.of_small _ (by omega))⟩
  · have h := pdqsort_sorted (data.length + 1) data 0 data.length (bits.Len data.length) true
      true (by omega) (Nat.zero_le _) (Nat.le_refl _) (Or.inl rfl)
    exact ⟨h.1.perm (Nat.le_refl _), hsorted _ h.1.length_eq h.2⟩

/-! ## Auxiliary facts: `url.QueryEscape`, `chooseInstance` -/

theorem queryEscape_eq_nil (v : GoString) : url.QueryEscape v = [] ↔ v = [] := by
  cases v with
  | nil => simp [url.QueryEscape]
  | cons c cs =>
    simp only [url.QueryEscape, List.flatMap_cons, List.append_eq_nil, reduceCtorEq, iff_false,
      not_and]
    intro h
    split_ifs at h

theorem str_none_ne_nil : str "[None]" ≠ [] := by decide

/-- The only error of `strconv.Atoi` is the `*NumError` for its input. -/
theorem atoi_error {s : GoString} {err : GoError} (h : strconv.Atoi s = .error err) :
    err = .numError s := by
  unfold strconv.Atoi at h
  split at h
  · cases h; rfl
  · dsimp only at h
    repeat' first | (cases h <;> rfl) | split at h

/-- Every record of the result stems from a provider record of the response. -/
theorem mem_reservationsToInstances {reservations : List ec2.RunInstancesOutput}
    {x : Instance} (hx : x ∈ reservationsToInstances reservations) :
    ∃ e ∈ allInstances reservations, reservationsToInstances.record e = x := by
  have h1 : x ∈ reservationsToInstances.collect reservations :=
    (sort_Sort_contract (reservationsToInstances.collect reservations)).1.subset hx
  rw [collect_eq_map] at h1
  exact List.mem_map.mp h1

theorem length_reservationsToInstances (reservations : List ec2.RunInstancesOutput) :
    (reservationsToInstances reservations).length = candidateCount reservations := by
  unfold reservationsToInstances
  rw [(sort_Sort_contract (reservationsToInstances.collect reservations)).1.length_eq,
    collect_eq_map, List.length_map, length_allInstances]

/-- The path of `chooseInstance` for a token that yields an index within range. -/
theorem chooseInstance_in_range (lookup : GoString)
    (reservations : List ec2.RunInstancesOutput) (which : GoString) (idx : Int)
    (hparsed : (if len which > 0 then strconv.Atoi which else .ok 1) = .ok idx)
    (h1 : 1 ≤ idx) (h2 : idx ≤ ((reservationsToInstances reservations).length : Int)) :
    ∃ x, (reservationsToInstances reservations)[(idx - 1).toNat]? = some x
      ∧ chooseInstance lookup reservations (some which)
          = match findInstance x reservations with
            | .error err => .fatal err
            | .ok e => .value e := by
  have hlt : (idx - 1).toNat < (reservationsToInstances reservations).length := by omega
  refine ⟨(reservationsToInstances reservations)[(idx - 1).toNat], ?_, ?_⟩
  · exact List.getElem?_eq_getElem hlt
  · unfold chooseInstance
    simp only [hparsed]
    rw [if_neg (by omega), List.getElem?_eq_getElem hlt]

/-- The path of `chooseInstance` for a token that yields an index out of range. -/
theorem chooseInstance_out_of_range (lookup : GoString)
    (reservations : List ec2.RunInstancesOutput) (which : GoString) (idx : Int)
    (hparsed : (if len which > 0 then strconv.Atoi which else .ok 1) = .ok idx)
    (h : idx < 1 ∨ idx > ((reservationsToInstances reservations).length : Int)) :
    chooseInstance lookup reservations (some which)
      = .fatal (.errorf (str "Invalid index " ++ fmtInt idx)) := by
  unfold chooseInstance
  simp only [hparsed]
  rw [if_pos h]

/-- The path of `chooseInstance` for a token that does not parse. -/
theorem chooseInstance_parse_error (lookup : GoString)
    (reservations : List ec2.RunInstancesOutput) (which : GoString) (err : GoError)
    (hparsed : (if len which > 0 then strconv.Atoi which else .ok 1) = .error err) :
    chooseInstance lookup reservations (some which) = .fatal err := by
  unfold chooseInstance
  simp only [hparsed]

theorem len_pos_of_ne_nil {which : GoString} (h : which ≠ []) : len which > 0 := by
  cases which with
  | nil => exact absurd rfl h
  | cons c cs => simp [len]

/-! ## Auxiliary facts: `fmt.Scanln` -/

theorem decodeRune_width_pos (p : GoString) (hp : p ≠ []) : 1 ≤ (utf8.DecodeRune p).2 := by
  have key : ∀ (c : Prop) [Decidable c] (a b : Nat × Nat), 1 ≤ a.2 → 1 ≤ b.2 →
      1 ≤ (if c then a else b).2 := by
    intro c _ a b ha hb
    split_ifs
    · exact ha
    · exact hb
  cases p with
  | nil => exact absurd rfl hp
  | cons p0 rest =>
    unfold utf8.DecodeRune
    dsimp only
    repeat' first | apply key | exact Nat.succ_le_succ (Nat.zero_le _)

theorem length_drop_decodeRune (p : GoString) (f : Nat) (hp : p ≠ []) (hf : p.length ≤ f + 1) :
    (p.drop (utf8.DecodeRune p).2).length ≤ f := by
  have h := decodeRune_width_pos p hp
  rw [List.length_drop]
  omega

/-- The budget of `SkipSpace` suffices: any budget of at least the length of the input
gives the same result. -/
theorem skipSpace_fuel (f g : Nat) (input : GoString) (hf : input.length ≤ f)
    (hg : input.length ≤ g) : fmt.ss.SkipSpace f input = fmt.ss.SkipSpace g input := by
  induction f generalizing g input with
  | zero =>
    have h0 : input = [] := List.length_eq_zero.mp (by omega)
    subst h0
    cases g <;> rfl
  | succ f ih =>
    by_cases h0 : input = []
    · subst h0
      cases g <;> rfl
    · cases g with
      | zero => exact absurd (List.length_eq_zero.mp (by omega)) h0
      | succ g =>
        have h1 := length_drop_decodeRune input f h0 hf
        have h2 := length_drop_decodeRune input g h0 hg
        unfold fmt.ss.SkipSpace
        rw [if_neg h0, if_neg h0]
        dsimp only
        rw [ih g _ h1 h2]

/-- The budget of the loop of `token` suffices. -/
theorem token_loop_fuel (f g : Nat) (input buf : GoString) (hf : input.length ≤ f)
    (hg : input.length ≤ g) :
    fmt.ss.token.loop f input buf = fmt.ss.token.loop g input buf := by
  induction f generalizing g input buf with
  | zero =>
    have h0 : input = [] := List.length_eq_zero.mp (by omega)
    subst h0
    cases g <;> rfl
  | succ f ih =>
    by_cases h0 : input = []
    · subst h0
      cases g <;> rfl
    · cases g with
      | zero => exact absurd (List.length_eq_zero.mp (by omega)) h0
      | succ g =>
        have h1 := length_drop_decodeRune input f h0 hf
        have h2 := length_drop_decodeRune input g h0 hg
        unfold fmt.ss.token.loop
        rw [if_neg h0, if_neg h0]
        dsimp only
        rw [ih g _ _ h1 h2]

/-- The budget of the final loop of `doScan` suffices. -/
theorem checkNewline_fuel (f g : Nat) (input : GoString) (hf : input.length ≤ f)
    (hg : input.length ≤ g) :
    fmt.ss.doScan.checkNewline f input = fmt.ss.doScan.checkNewline g input := by
  induction f generalizing g input with
  | zero =>
    have h0 : input = [] := List.length_eq_zero.mp (by omega)
    subst h0
    cases g <;> rfl
  | succ f ih =>
    by_cases h0 : input = []
    · subst h0
      cases g <;> rfl
    · cases g with
      | zero => exact absurd (List.length_eq_zero.mp (by omega)) h0
      | succ g =>
        have h1 := length_drop_decodeRune input f h0 hf
        have h2 := length_drop_decodeRune input g h0 hg
        unfold fmt.ss.doScan.checkNewline
        rw [if_neg h0, if_neg h0]
        dsimp only
        rw [ih g _ h1 h2]

/-- A word stored by `chooseInstance.scan` is the value of `which` after a call of
`fmt.Scanln` that did not end in `io.EOF`. -/
theorem scan_eq_some (input which : GoString) (h : chooseInstance.scan input = some which) :
    (fmt.Scanln [] input).1 = which ∧ (fmt.Scanln [] input).2 ≠ some .EOF := by
  unfold chooseInstance.scan at h
  dsimp only at h
  split_ifs at h with h1
  exact ⟨Option.some.inj h, h1⟩

/-! ## The claims -/

/-- C5: for every grouped response, `reservationsToInstances` returns a permutation of
the flattened records, one per provider record and carrying its id, its private address
and its public address or the sentinel `None`; the length of the result is the total
number of provider records; and the names ascend in byte order between any two
positions `i < j`. -/
theorem reservationsToInstances_sorted_perm (reservations : List ec2.RunInstancesOutput) :
    (∃ flat : Instances,
        (reservationsToInstances reservations).Perm flat
        ∧ List.Forall₂ (fun e x => x.Id = e.InstanceId ∧ x.Ip = e.PrivateIpAddress
            ∧ x.Ipp = e.PublicIpAddress.getD (str "None")) (allInstances reservations) flat)
    ∧ (reservationsToInstances reservations).length = candidateCount reservations
    ∧ ∀ i j : Fin (reservationsToInstances reservations).length, i < j →
        stringLessEq ((reservationsToInstances reservations).get i).Name
          ((reservationsToInstances reservations).get j).Name = true := by
  obtain ⟨hperm, hsorted⟩ := sort_Sort_contract (reservationsToInstances.collect reservations)
  refine ⟨⟨_, hperm, ?_⟩, ?_, ?_⟩
  · rw [collect_eq_map]
    exact forall₂_map_record _
  · unfold reservationsToInstances
    rw [hperm.length_eq, collect_eq_map, List.length_map, length_allInstances]
  · intro i j hij
    have h := isSorted_pairwise hsorted i.1 j.1 (Nat.le_of_lt hij) j.2
    have hi : (sort.Sort Instances.sortInterface
          (reservationsToInstances.collect reservations)).getD i.1 default
        = (reservationsToInstances reservations).get i := List.getD_eq_getElem _ _ i.2
    have hj : (sort.Sort Instances.sortInterface
          (reservationsToInstances.collect reservations)).getD j.1 default
        = (reservationsToInstances reservations).get j := List.getD_eq_getElem _ _ j.2
    rw [hi, hj] at h
    exact h

/-- C5, at a concrete input: the five candidates come back in the order `web-1`, ...,
`web-5`. -/
theorem reservationsToInstances_sorted_perm_witness :
    ((∃ flat : Instances,
        (reservationsToInstances fiveCandidates).Perm flat
        ∧ List.Forall₂ (fun e x => x.Id = e.InstanceId ∧ x.Ip = e.PrivateIpAddress
            ∧ x.Ipp = e.PublicIpAddress.getD (str "None")) (allInstances fiveCandidates) flat)
    ∧ (reservationsToInstances fiveCandidates).length = candidateCount fiveCandidates
    ∧ ∀ i j : Fin (reservationsToInstances fiveCandidates).length, i < j →
        stringLessEq ((reservationsToInstances fiveCandidates).get i).Name
          ((reservationsToInstances fiveCandidates).get j).Name = true)
    ∧ (reservationsToInstances fiveCandidates).map (fun x => x.Id)
        = [str "i-00000001", str "i-00000002", str "i-00000003", str "i-00000004",
            str "i-00000005"] :=
  ⟨reservationsToInstances_sorted_perm fiveCandidates, by decide⟩

/-- C10: for every grouped response and every record `x` of `reservationsToInstances`,
`findInstance` returns without error a provider record of the response whose instance
id is `x.Id`; and `chooseInstance` never ends in the "instance not found" error (nor in
a panic), whatever is typed at the prompt. -/
theorem findInstance_consistent (reservations : List ec2.RunInstancesOutput) :
    (∀ x ∈ reservationsToInstances reservations,
        ∃ e, findInstance x reservations = .ok e ∧ e ∈ allInstances reservations
          ∧ e.InstanceId = x.Id)
    ∧ ∀ (lookup : GoString) (stdin : Option GoString),
        (∀ x, chooseInstance lookup reservations stdin ≠ .fatal (.instanceNotFound x))
        ∧ chooseInstance lookup reservations stdin ≠ .panic := by
  have hfind : ∀ x ∈ reservationsToInstances reservations,
      ∃ e, findInstance x reservations = .ok e ∧ e ∈ allInstances reservations
        ∧ e.InstanceId = x.Id := by
    intro x hx
    obtain ⟨e, he, hrec⟩ := mem_reservationsToInstances hx
    exact findInstance_of_mem ⟨e, he, by rw [← hrec]; rfl⟩
  refine ⟨hfind, ?_⟩
  intro lookup stdin
  cases stdin with
  | none => simp [chooseInstance]
  | some which =>
    cases hparsed : (if len which > 0 then strconv.Atoi which else .ok 1) with
    | error err =>
      rw [chooseInstance_parse_error lookup reservations which err hparsed]
      constructor
      · intro x hx
        injection hx with hx
        subst hx
        by_cases hw : len which > 0
        · rw [if_pos hw] at hparsed
          cases atoi_error hparsed
        · rw [if_neg hw] at hparsed
          cases hparsed
      · simp
    | ok idx =>
      by_cases hr : idx < 1 ∨ idx > ((reservationsToInstances reservations).length : Int)
      · rw [chooseInstance_out_of_range lookup reservations which idx hparsed hr]
        simp
      · obtain ⟨x, hx, hchoose⟩ := chooseInstance_in_range lookup reservations which idx
          hparsed (by omega) (by omega)
        obtain ⟨e, he, _⟩ := hfind x (List.getElem?_mem hx)
        rw [hchoose, he]
        simp

/-- C10, at a concrete input: the two groups of the end-to-end scenario. -/
theorem findInstance_consistent_witness :
    ((∀ x ∈ reservationsToInstances twoGroups,
        ∃ e, findInstance x twoGroups = .ok e ∧ e ∈ allInstances twoGroups
          ∧ e.InstanceId = x.Id)
    ∧ ∀ (lookup : GoString) (stdin : Option GoString),
        (∀ x, chooseInstance lookup twoGroups stdin ≠ .fatal (.instanceNotFound x))
        ∧ chooseInstance lookup twoGroups stdin ≠ .panic)
    ∧ findInstance
          { Name := str "web-2", Id := str "i-00000002", Ip := str "10.0.0.5",
            Ipp := str "203.0.113.2" } twoGroups
        = .ok (exampleInstance "web-2" "i-00000002" "203.0.113.2") :=
  ⟨findInstance_consistent twoGroups, rfl⟩

/-- C7: for every grouped response with `n ≥ 1` candidates, the empty token selects
index `k = 1` and a token that `strconv.Atoi` parses as `k` with `1 ≤ k ≤ n` selects
index `k`: `chooseInstance` returns a provider record of the original response, and
its instance id is the id of the `k`-th (1-based) element of the list of
`reservationsToInstances`. -/
theorem chooseInstance_selects (lookup : GoString)
    (reservations : List ec2.RunInstancesOutput) (which : GoString) (k : Int)
    (hk : 1 ≤ k ∧ k ≤ (candidateCount reservations : Int))
    (hinput : (which = [] ∧ k = 1) ∨ (which ≠ [] ∧ strconv.Atoi which = .ok k)) :
    ∃ x e, (reservationsToInstances reservations)[(k - 1).toNat]? = some x
      ∧ chooseInstance lookup reservations (some which) = .value e
      ∧ e ∈ allInstances reservations ∧ e.InstanceId = x.Id := by
  have hparsed : (if len which > 0 then strconv.Atoi which else .ok 1) = .ok k := by
    rcases hinput with ⟨hw, hk1⟩ | ⟨hw, hatoi⟩
    · subst hw; subst hk1; rfl
    · rw [if_pos (len_pos_of_ne_nil hw), hatoi]
  have hlen := length_reservationsToInstances reservations
  obtain ⟨x, hx, hchoose⟩ := chooseInstance_in_range lookup reservations which k
    hparsed hk.1 (by rw [hlen]; exact hk.2)
  obtain ⟨e1, he1, hrec⟩ := mem_reservationsToInstances (List.getElem?_mem hx)
  obtain ⟨e, he, hmem, hid⟩ :=
    @findInstance_of_mem x reservations ⟨e1, he1, by rw [← hrec]; rfl⟩
  refine ⟨x, e, hx, ?_, hmem, hid⟩
  rw [hchoose, he]

/-- C7, at concrete inputs: five candidates and the token `3` give the third candidate
in name order; the two groups `web-1`, `web-2` and the token `2` give the `web-2`
record, and the empty token gives the `web-1` record. -/
theorem chooseInstance_selects_witness :
    ((1 : Int) ≤ 3 ∧ (3 : Int) ≤ (candidateCount fiveCandidates : Int))
    ∧ ((str "3" = [] ∧ (3 : Int) = 1) ∨ (str "3" ≠ [] ∧ strconv.Atoi (str "3") = .ok 3))
    ∧ (∃ x e, (reservationsToInstances fiveCandidates)[((3 : Int) - 1).toNat]? = some x
        ∧ chooseInstance (str "web") fiveCandidates (some (str "3")) = .value e
        ∧ e ∈ allInstances fiveCandidates ∧ e.InstanceId = x.Id)
    ∧ chooseInstance (str "web") fiveCandidates (some (str "3"))
        = .value (exampleInstance "web-3" "i-00000003" "203.0.113.3")
    ∧ chooseInstance (str "web") twoGroups (some (str "2"))
        = .value (exampleInstance "web-2" "i-00000002" "203.0.113.2")
    ∧ chooseInstance (str "web") twoGroups (some (str ""))
        = .value (exampleInstance "web-1" "i-00000001" "203.0.113.1") :=
  ⟨by decide, Or.inr ⟨by decide, rfl⟩,
    chooseInstance_selects (str "web") fiveCandidates (str "3") 3 (by decide)
      (Or.inr ⟨by decide, rfl⟩),
    by decide, by decide, by decide⟩

/-- C8 is false as stated: the line `3 4` is not empty and is not a base-10 integer,
yet `fmt.Scanln` stores its first word `3`, the error `expected newline` is dropped, and
`chooseInstance` returns the third of five candidates; a line of two blanks is not
empty either, `which` stays empty, and the first candidate is returned. -/
theorem chooseInstance_line_counterexample :
    str "3 4" ≠ []
    ∧ strconv.Atoi (str "3 4") = .error (.numError (str "3 4"))
    ∧ fmt.Scanln [] (str "3 4\n") = (str "3", some .expectedNewline)
    ∧ chooseInstance (str "web") fiveCandidates (chooseInstance.scan (str "3 4\n"))
        = .value (exampleInstance "web-3" "i-00000003" "203.0.113.3")
    ∧ str "  " ≠ []
    ∧ strconv.Atoi (str "  ") = .error (.numError (str "  "))
    ∧ fmt.Scanln [] (str "  \n") = ([], some .unexpectedNewline)
    ∧ chooseInstance (str "web") fiveCandidates (chooseInstance.scan (str "  \n"))
        = .value (exampleInstance "web-1" "i-00000001" "203.0.113.1") :=
  ⟨by decide, rfl, by decide, by decide, by decide, rfl, by decide, by decide⟩

/-- C8, amended: for every candidate list (of length `n`) and every prompt input of
which `fmt.Scanln` stores a non-empty word `which` (the first word of the line; what
follows it is not looked at), `chooseInstance` ends in the fatal error of
`strconv.Atoi` when the word does not parse as a base-10 integer, and in the fatal error
`Invalid index k` when it parses as `k` with `k < 1` or `k > n`; in neither case does it
return a candidate. -/
theorem chooseInstance_rejects (lookup : GoString)
    (reservations : List ec2.RunInstancesOutput) (input which : GoString)
    (hscan : chooseInstance.scan input = some which) (hne : which ≠ []) :
    (∀ err, strconv.Atoi which = .error err →
        chooseInstance lookup reservations (chooseInstance.scan input) = .fatal err)
    ∧ ∀ k : Int, strconv.Atoi which = .ok k →
        (k < 1 ∨ k > ((reservationsToInstances reservations).length : Int)) →
        chooseInstance lookup reservations (chooseInstance.scan input)
          = .fatal (.errorf (str "Invalid index " ++ fmtInt k)) := by
  have hw := len_pos_of_ne_nil hne
  rw [hscan]
  constructor
  · intro err herr
    exact chooseInstance_parse_error lookup reservations which err
      (by rw [if_pos hw, herr])
  · intro k hk hrange
    exact chooseInstance_out_of_range lookup reservations which k
      (by rw [if_pos hw, hk]) hrange

/-- C8 amended, at concrete inputs: with five candidates the lines `0` and `6` end in
`Invalid index 0` and `Invalid index 6`, and the line `abc` in the error of
`strconv.Atoi`. -/
theorem chooseInstance_rejects_witness :
    chooseInstance.scan (str "abc\n") = some (str "abc")
    ∧ str "abc" ≠ []
    ∧ ((∀ err, strconv.Atoi (str "abc") = .error err →
          chooseInstance (str "web") fiveCandidates (chooseInstance.scan (str "abc\n"))
            = .fatal err)
      ∧ ∀ k : Int, strconv.Atoi (str "abc") = .ok k →
          (k < 1 ∨ k > ((reservationsToInstances fiveCandidates).length : Int)) →
          chooseInstance (str "web") fiveCandidates (chooseInstance.scan (str "abc\n"))
            = .fatal (.errorf (str "Invalid index " ++ fmtInt k)))
    ∧ chooseInstance (str "web") fiveCandidates (chooseInstance.scan (str "abc\n"))
        = .fatal (.numError (str "abc"))
    ∧ chooseInstance (str "web") fiveCandidates (chooseInstance.scan (str "0\n"))
        = .fatal (.errorf (str "Invalid index 0"))
    ∧ chooseInstance (str "web") fiveCandidates (chooseInstance.scan (str "6\n"))
        = .fatal (.errorf (str "Invalid index 6")) :=
  ⟨by decide, by decide,
    chooseInstance_rejects (str "web") fiveCandidates (str "abc\n") (str "abc") (by decide)
      (by decide),
    by decide, by decide, by decide⟩

/-- C9 is false as stated: the remote command `é` is one character long; it takes two
bytes, so `len(remoteCommand) > 1` holds and it is appended as the final argument. -/
theorem args_one_character_counterexample :
    characters (str "é") = 1
    ∧ len (str "é") = 2
    ∧ main.args joinClean (str "/home/u/.ssh") false (str "é")
          (exampleInstance "web-1" "i-00000001" "203.0.113.1")
        = .value [str "-i", str "/home/u/.ssh/mykey.pem", str "-l", str "ec2-user",
            str "203.0.113.1", str "é"] := by
  decide

/-- C9, amended: for every resolved instance with credential name `c` and public address
`a`, every value of the verbose flag and every remote command `cmd`, the argument list
is `-i`, `keypath(c)`, `-l`, `ec2-user`, `a`, then `-v` iff the verbose flag is set,
then `cmd` iff `len(cmd) > 1`, where `len` counts the bytes of the string: a command of
at most one byte is never appended, and a command of more than one byte is always the
final argument. -/
theorem main_args_shape (pathJoin : GoString → GoString → GoString) (kp : GoString)
    (verboseFlag : Bool) (remoteCommand : GoString) (inst : ec2.Instance) (c a : GoString)
    (hc : inst.KeyName = some c) (ha : inst.PublicIpAddress = some a) :
    main.args pathJoin kp verboseFlag remoteCommand inst
      = .value ([str "-i", keypath pathJoin kp c, str "-l", str "ec2-user", a]
          ++ (if verboseFlag then [str "-v"] else [])
          ++ (if len remoteCommand > 1 then [remoteCommand] else []))
    ∧ (len remoteCommand ≤ 1 →
        main.args pathJoin kp verboseFlag remoteCommand inst
          = .value ([str "-i", keypath pathJoin kp c, str "-l", str "ec2-user", a]
              ++ (if verboseFlag then [str "-v"] else [])))
    ∧ (len remoteCommand > 1 →
        ∃ args, main.args pathJoin kp verboseFlag remoteCommand inst = .value args
          ∧ args.getLast? = some remoteCommand) := by
  have hmain : main.args pathJoin kp verboseFlag remoteCommand inst
      = .value ([str "-i", keypath pathJoin kp c, str "-l", str "ec2-user", a]
          ++ (if verboseFlag then [str "-v"] else [])
          ++ (if len remoteCommand > 1 then [remoteCommand] else [])) := by
    unfold main.args
    rw [hc, ha]
    cases verboseFlag <;> by_cases hlen : len remoteCommand > 1 <;> simp [hlen]
  refine ⟨hmain, ?_, ?_⟩
  · intro hlen
    have hn : ¬ len remoteCommand > 1 := by omega
    rw [hmain, if_neg hn, List.append_nil]
  · intro hlen
    refine ⟨_, hmain, ?_⟩
    rw [if_pos hlen, List.getLast?_append]
    rfl

/-- C9 amended, at a concrete input: key `mykey` under `/home/u/.ssh`, verbose mode, and
the remote command `ls`. -/
theorem main_args_shape_witness :
    (exampleInstance "web-1" "i-00000001" "203.0.113.1").KeyName = some (str "mykey")
    ∧ (exampleInstance "web-1" "i-00000001" "203.0.113.1").PublicIpAddress
        = some (str "203.0.113.1")
    ∧ (main.args joinClean (str "/home/u/.ssh") true (str "ls")
          (exampleInstance "web-1" "i-00000001" "203.0.113.1")
        = .value ([str "-i", keypath joinClean (str "/home/u/.ssh") (str "mykey"), str "-l",
              str "ec2-user", str "203.0.113.1"]
            ++ (if true then [str "-v"] else [])
            ++ (if len (str "ls") > 1 then [str "ls"] else []))
      ∧ (len (str "ls") ≤ 1 →
          main.args joinClean (str "/home/u/.ssh") true (str "ls")
              (exampleInstance "web-1" "i-00000001" "203.0.113.1")
            = .value ([str "-i", keypath joinClean (str "/home/u/.ssh") (str "mykey"),
                  str "-l", str "ec2-user", str "203.0.113.1"]
                ++ (if true then [str "-v"] else [])))
      ∧ (len (str "ls") > 1 →
          ∃ args, main.args joinClean (str "/home/u/.ssh") true (str "ls")
              (exampleInstance "web-1" "i-00000001" "203.0.113.1") = .value args
            ∧ args.getLast? = some (str "ls")))
    ∧ main.args joinClean (str "/home/u/.ssh") true (str "ls")
          (exampleInstance "web-1" "i-00000001" "203.0.113.1")
        = .value [str "-i", str "/home/u/.ssh/mykey.pem", str "-l", str "ec2-user",
            str "203.0.113.1", str "-v", str "ls"]
    ∧ main.args joinClean (str "/home/u/.ssh") false (str "w")
          (exampleInstance "web-1" "i-00000001" "203.0.113.1")
        = .value [str "-i", str "/home/u/.ssh/mykey.pem", str "-l", str "ec2-user",
            str "203.0.113.1"] :=
  ⟨rfl, rfl,
    main_args_shape joinClean (str "/home/u/.ssh") true (str "ls")
      (exampleInstance "web-1" "i-00000001" "203.0.113.1") (str "mykey") (str "203.0.113.1")
      rfl rfl,
    by decide, by decide⟩

/-- C6 is false as stated: an instance whose `Name` tag has the empty value yields a
record with the empty `Name`; no sentinel is substituted. -/
theorem name_empty_counterexample :
    reservationsToInstances [{ Instances := [emptyNameInstance] }]
      = [{ Name := str "", Id := str "i-00000009", Ip := str "10.0.0.9", Ipp := str "None" }]
    ∧ str "" = [] := by
  decide

/-- C6, amended: for every grouped response, every record `x` returned by
`reservationsToInstances` stems from a provider record of the response; its `Name` is
the sentinel `[None]` when that record has no `Name` tag and the query-escaped value of
its last `Name` tag otherwise; and the `Name` is empty exactly when that last `Name`
tag has the empty value. -/
theorem reservationsToInstances_name (reservations : List ec2.RunInstancesOutput)
    (x : Instance) (hx : x ∈ reservationsToInstances reservations) :
    ∃ e ∈ allInstances reservations, x.Id = e.InstanceId
      ∧ ((lastNameTag e.Tags = none ∧ x.Name = str "[None]")
        ∨ ∃ t, lastNameTag e.Tags = some t ∧ x.Name = url.QueryEscape t.Value)
      ∧ (x.Name = [] ↔ ∃ t, lastNameTag e.Tags = some t ∧ t.Value = []) := by
  obtain ⟨e, he, hrec⟩ := mem_reservationsToInstances hx
  have hname : x.Name = reservationsToInstances.name e.Tags := by rw [← hrec]; rfl
  refine ⟨e, he, by rw [← hrec]; rfl, ?_, ?_⟩
  · rw [hname, name_eq]
    cases lastNameTag e.Tags with
    | none => exact Or.inl ⟨rfl, rfl⟩
    | some t => exact Or.inr ⟨t, rfl, rfl⟩
  · rw [hname, name_eq]
    cases lastNameTag e.Tags with
    | none =>
      constructor
      · intro h; exact absurd h str_none_ne_nil
      · rintro ⟨t, ht, _⟩; cases ht
    | some t =>
      constructor
      · intro h; exact ⟨t, rfl, (queryEscape_eq_nil _).mp h⟩
      · rintro ⟨t1, ht, hv⟩
        cases ht
        exact (queryEscape_eq_nil _).mpr hv

/-- C6 amended, at a concrete input: one group with an untagged instance, an instance
whose `Name` tag is empty and an instance named `web 1`; the record of the last one is
named `web+1`. -/
theorem reservationsToInstances_name_witness :
    ({ Name := str "web+1", Id := str "i-00000001", Ip := str "10.0.0.5",
        Ipp := str "203.0.113.1" } : Instance) ∈ reservationsToInstances mixedNames
    ∧ (∃ e ∈ allInstances mixedNames, str "i-00000001" = e.InstanceId
        ∧ ((lastNameTag e.Tags = none ∧ str "web+1" = str "[None]")
          ∨ ∃ t, lastNameTag e.Tags = some t ∧ str "web+1" = url.QueryEscape t.Value)
        ∧ (str "web+1" = [] ↔ ∃ t, lastNameTag e.Tags = some t ∧ t.Value = []))
    ∧ (reservationsToInstances mixedNames).map (fun x => x.Name)
        = [str "", str "[None]", str "web+1"] :=
  ⟨by decide,
    reservationsToInstances_name mixedNames
      { Name := str "web+1", Id := str "i-00000001", Ip := str "10.0.0.5",
        Ipp := str "203.0.113.1" } (by decide),
    by decide⟩

/-- C1, where the code departs from the claim: `main` reduces on the number of groups,
not on the number of instance records.  One group holding two records resolves to the
first record and `chooseInstance` is not called; two groups holding one record in
total call `chooseInstance`.  With no group or with at least two groups the reduction
is the one the claim describes. -/
theorem resolve_counts_groups (lookup : GoString)
    (a b : ec2.Instance) (stdin : Option GoString) :
    main.resolve lookup [{ Instances := [a, b] }] stdin
      = { chooseInstanceCalls := 0, result := .value a }
    ∧ candidateCount [{ Instances := [a, b] }] = 2
    ∧ main.resolve lookup [{ Instances := [a] }, { Instances := [] }] stdin
      = { chooseInstanceCalls := 1,
          result := chooseInstance lookup [{ Instances := [a] }, { Instances := [] }]
            stdin }
    ∧ candidateCount [{ Instances := [a] }, { Instances := [] }] = 1 := by
  refine ⟨rfl, rfl, rfl, rfl⟩

/-- C2, where the code departs from the claim: a response of one group without instance
records holds zero candidates, and `main` indexes `Instances[0]` of that group, a
run-time panic rather than the fatal error; the fatal error `Found no instance
'<lookup>'` is raised when the response has no group at all. -/
theorem resolve_empty_group (lookup : GoString)
    (stdin : Option GoString) :
    main.resolve lookup [{ Instances := [] }] stdin
      = { chooseInstanceCalls := 0, result := .panic }
    ∧ candidateCount [{ Instances := [] }] = 0
    ∧ main.resolve lookup [] stdin
      = { chooseInstanceCalls := 0,
          result := .fatal (.errorf (str "Found no instance '" ++ lookup ++ str "'")) } := by
  refine ⟨rfl, rfl, rfl⟩

/-- C3 is false as stated: `web-i-0123456789abcdef` is no address literal and is not,
as a whole, an instance identifier, so the reference function answers `by name`; the
expression `instIdRe` has no anchor at the start, matches the end of the string, and
`main` takes the `by identifier` branch. -/
theorem classify_counterexample :
    main.classify noAddress (str "web-i-0123456789abcdef") = .byIdentifier
    ∧ classifyWholeMatch noAddress (str "web-i-0123456789abcdef") = .byName := by
  decide

/-- C3, amended: for every input string the classifier of `main` answers `by address`
if `net.ParseIP` succeeds, otherwise `by identifier` if the string ends in `i-` followed
by 8 to 17 hexadecimal digits, otherwise `by name`.  In particular (`net.ParseIP`
succeeding only on strings that hold a dot or a colon) every string that is, as a
whole, such an identifier is classified `by identifier`, and every string that is
neither an address literal nor ends in such an identifier is classified `by name`. -/
theorem classify_eq_classifySuffixMatch (netParseIP : GoString → Option (List UInt8))
    (s : GoString) :
    main.classify netParseIP s = classifySuffixMatch netParseIP s
    ∧ ((∀ t, (netParseIP t).isSome = true → ch '.' ∈ t ∨ ch ':' ∈ t) →
        isInstanceId s = true → main.classify netParseIP s = .byIdentifier)
    ∧ ((netParseIP s).isSome = false → s.tails.any isInstanceId = false →
        main.classify netParseIP s = .byName) := by
  have hmain : main.classify netParseIP s = classifySuffixMatch netParseIP s := by
    unfold main.classify main.params classifySuffixMatch
    rw [instIdRe_matchString]
    by_cases h1 : (netParseIP s).isSome = true
    · simp [h1]
    · by_cases h2 : s.tails.any isInstanceId = true
      · simp [h1, h2]
      · rw [if_neg h1, if_neg h1, if_neg h2, if_neg h2]
  refine ⟨hmain, ?_, ?_⟩
  · intro hIP hid
    have hself : s.tails.any isInstanceId = true :=
      List.any_eq_true.mpr ⟨s, (List.mem_tails s s).mpr (List.suffix_refl s), hid⟩
    have hnot : ¬ (netParseIP s).isSome = true := by
      intro hsome
      have hmem : ∀ c ∈ s, c = ch 'i' ∨ c = ch '-' ∨ isHexDigit c = true := by
        intro c hc
        simp only [isInstanceId, Bool.and_eq_true, beq_iff_eq, decide_eq_true_eq,
          List.all_eq_true, str_i_dash] at hid
        rw [← List.take_append_drop 2 s, List.mem_append, hid.1.1.1] at hc
        rcases hc with hc | hc
        · simp only [List.mem_cons, List.mem_singleton, List.not_mem_nil, or_false] at hc
          rcases hc with hc | hc
          · exact Or.inl hc
          · exact Or.inr (Or.inl hc)
        · exact Or.inr (Or.inr (hid.2 c hc))
      rcases hIP s hsome with hdot | hcolon
      · rcases hmem _ hdot with h | h | h
        · exact absurd h (by decide)
        · exact absurd h (by decide)
        · exact absurd h (by decide)
      · rcases hmem _ hcolon with h | h | h
        · exact absurd h (by decide)
        · exact absurd h (by decide)
        · exact absurd h (by decide)
    rw [hmain]
    unfold classifySuffixMatch
    rw [if_neg hnot, if_pos hself]
  · intro hIP hno
    rw [hmain]
    unfold classifySuffixMatch
    rw [if_neg (by simp [hIP]), if_neg (by simp [hno])]

/-- C3 amended, at concrete inputs: a whole identifier, a string that ends in one, and
a plain name. -/
theorem classify_eq_classifySuffixMatch_witness :
    (main.classify noAddress (str "i-0123456789abcdef")
        = classifySuffixMatch noAddress (str "i-0123456789abcdef")
      ∧ ((∀ t, (noAddress t).isSome = true → ch '.' ∈ t ∨ ch ':' ∈ t) →
          isInstanceId (str "i-0123456789abcdef") = true →
          main.classify noAddress (str "i-0123456789abcdef") = .byIdentifier)
      ∧ ((noAddress (str "i-0123456789abcdef")).isSome = false →
          (str "i-0123456789abcdef").tails.any isInstanceId = false →
          main.classify noAddress (str "i-0123456789abcdef") = .byName))
    ∧ main.classify noAddress (str "i-0123456789abcdef") = .byIdentifier
    ∧ main.classify noAddress (str "web-i-0123456789abcdef") = .byIdentifier
    ∧ main.classify noAddress (str "web-1") = .byName
    ∧ main.classify noAddress (str "i-1234567") = .byName :=
  ⟨classify_eq_classifySuffixMatch noAddress (str "i-0123456789abcdef"),
    by decide, by decide, by decide, by decide⟩

/-- C4 is false as stated: of thirteen candidates the first and the last of the
flattening are both named `b`, and `sort.Sort` returns the last one before the
first one. -/
theorem stable_counterexample :
    (withName (str "b") (reservationsToInstances.collect thirteenCandidates)).map
        (fun x => x.Id) = [str "i-0000000a", str "i-0000000b"]
    ∧ (withName (str "b") (reservationsToInstances thirteenCandidates)).map
        (fun x => x.Id) = [str "i-0000000b", str "i-0000000a"] := by
  decide

/-- C4, amended: for every grouped response of at most twelve instance records, the
sort of `reservationsToInstances` (`sort.Sort`, an insertion sort on that many
elements) is stable: for every name, the records carrying it stand in the returned
list in the order they have in the flattening of the response. -/
theorem reservationsToInstances_stable_small (reservations : List ec2.RunInstancesOutput)
    (hsmall : candidateCount reservations ≤ 12) (name : GoString) :
    withName name (reservationsToInstances reservations)
      = withName name ((allInstances reservations).map reservationsToInstances.record) := by
  unfold reservationsToInstances
  rw [← collect_eq_map]
  refine sort_Sort_small_stable name _ ?_
  rw [collect_eq_map, List.length_map, length_allInstances]
  exact hsmall

/-- C4 amended, at a concrete input: three candidates, two of them named `web`; the
two keep their order behind the candidate named `db`. -/
theorem reservationsToInstances_stable_small_witness :
    candidateCount threeCandidates ≤ 12
    ∧ withName (str "web") (reservationsToInstances threeCandidates)
        = withName (str "web")
            ((allInstances threeCandidates).map reservationsToInstances.record)
    ∧ (reservationsToInstances threeCandidates).map (fun x => x.Id)
        = [str "i-00000001", str "i-0000000a", str "i-0000000b"] :=
  ⟨by decide, reservationsToInstances_stable_small threeCandidates (by decide) (str "web"),
    by decide⟩

end Awsssh
